import Mathlib

/-!
# Verification of the dominance grid engine

Shallow embedding of the core of the `brew-country` repository: the geo
utilities (`haversineDistanceKm`, `precomputeGrid`, `metersToDegLat/Lon`),
the dominance aggregator (`computeDominance`), the grid post-processors
(`smoothWinnerGrid`, `mergeSmallIslands`), the region extractor
(`extractRegions`) and the point lookup (`findCellAt`).

Geographic coordinates, distances and grid-spec fields are modelled as real
numbers; vote weights, radii and the per-cell accumulators are modelled as
rationals (JavaScript numbers applied to exact input data), which keeps the
accumulation layer decidable.  JavaScript `Map`s are modelled as
insertion-ordered association lists, matching the iteration-order semantics
the code relies on.
-/

namespace BrewCountry

/-! ## Geo utilities (src: domain/geo.ts) -/

noncomputable def DEG_TO_RAD : ℝ := Real.pi / 180

def EARTH_RADIUS_KM : ℝ := 6371

def METERS_PER_DEG_LAT : ℝ := 111320

/-- JavaScript `Math.atan2(y, x)` on the reals. -/
noncomputable def atan2 (y x : ℝ) : ℝ :=
  if 0 < x then Real.arctan (y / x)
  else if x < 0 then
    (if 0 ≤ y then Real.arctan (y / x) + Real.pi else Real.arctan (y / x) - Real.pi)
  else
    (if 0 < y then Real.pi / 2 else if y < 0 then -(Real.pi / 2) else 0)

/-- Haversine distance in km between two lat/lon points (src: `haversineDistanceKm`). -/
noncomputable def haversineDistanceKm (lat1 lon1 lat2 lon2 : ℝ) : ℝ :=
  let dLat := (lat2 - lat1) * DEG_TO_RAD
  let dLon := (lon2 - lon1) * DEG_TO_RAD
  let a :=
    Real.sin (dLat / 2) ^ 2 +
      Real.cos (lat1 * DEG_TO_RAD) * Real.cos (lat2 * DEG_TO_RAD) *
        Real.sin (dLon / 2) ^ 2
  EARTH_RADIUS_KM * 2 * atan2 (Real.sqrt a) (Real.sqrt (1 - a))

structure GridSpec where
  minLat : ℝ
  maxLat : ℝ
  minLon : ℝ
  maxLon : ℝ
  cellSizeMeters : ℝ
  deriving Inhabited

structure GridCell where
  row : ℕ
  col : ℕ
  centerLat : ℝ
  centerLon : ℝ
  deriving Inhabited

noncomputable def metersToDegLat (meters : ℝ) : ℝ :=
  meters / METERS_PER_DEG_LAT

noncomputable def metersToDegLon (meters lat : ℝ) : ℝ :=
  meters / (METERS_PER_DEG_LAT * Real.cos (lat * DEG_TO_RAD))

structure PrecomputedGrid where
  rows : ℤ
  cols : ℤ
  cells : List GridCell

/-- The latitude of the center of row `r` (src: `cellLat` in `precomputeGrid`). -/
noncomputable def rowCenterLat (spec : GridSpec) (r : ℕ) : ℝ :=
  spec.minLat + ((r : ℝ) + 0.5) * (spec.cellSizeMeters / METERS_PER_DEG_LAT)

/-- The per-row longitude step (src: `rowDLon` in `precomputeGrid`). -/
noncomputable def rowDLon (spec : GridSpec) (r : ℕ) : ℝ :=
  spec.cellSizeMeters / (METERS_PER_DEG_LAT * Real.cos (rowCenterLat spec r * DEG_TO_RAD))

/-- One enumerated grid cell (src: the `cells.push` in `precomputeGrid`). -/
noncomputable def enumCell (spec : GridSpec) (r c : ℕ) : GridCell :=
  { row := r, col := c, centerLat := rowCenterLat spec r,
    centerLon := spec.minLon + ((c : ℝ) + 0.5) * rowDLon spec r }

/-- Precompute all grid cells for a given GridSpec (src: `precomputeGrid`). -/
noncomputable def precomputeGrid (spec : GridSpec) : PrecomputedGrid :=
  let dLat := spec.cellSizeMeters / METERS_PER_DEG_LAT
  let rows : ℤ := ⌊(spec.maxLat - spec.minLat) / dLat⌋
  let centerLat := (spec.minLat + spec.maxLat) / 2
  let dLon := spec.cellSizeMeters / (METERS_PER_DEG_LAT * Real.cos (centerLat * DEG_TO_RAD))
  let cols : ℤ := ⌊(spec.maxLon - spec.minLon) / dLon⌋
  { rows := rows, cols := cols,
    cells := (List.range rows.toNat).flatMap fun r =>
      (List.range cols.toNat).map fun c => enumCell spec r c }

/-! ## Data model (src: domain/types.ts) -/

structure Vote where
  id : String
  lat : ℝ
  lon : ℝ
  beerId : String
  timestamp : ℤ

structure WeightedVote where
  id : String
  lat : ℝ
  lon : ℝ
  beerId : String
  weight : ℚ
  radiusKm : ℚ
  source : String

structure CellResult where
  row : ℕ
  col : ℕ
  winnerBeerId : Option String
  winnerCount : ℚ
  totalCount : ℚ
  voteCounts : List (String × ℚ)
  runnerUpBeerId : Option String
  runnerUpCount : ℚ
  margin : ℚ
  deriving Inhabited, DecidableEq

structure DominanceResult where
  rows : ℤ
  cols : ℤ
  cells : List CellResult
  gridSpec : GridSpec

/-! ## Insertion-ordered association lists (model of JavaScript `Map`) -/

/-- `m.get(k) ?? d` on an insertion-ordered map. -/
def mapGetD {α : Type} (m : List (String × α)) (k : String) (d : α) : α :=
  match m.find? (fun p => p.1 == k) with
  | some p => p.2
  | none => d

/-- `m.set(k, v)`: updates the entry in place if present, else appends. -/
def mapSet {α : Type} : List (String × α) → String → α → List (String × α)
  | [], k, v => [(k, v)]
  | (k', v') :: rest, k, v =>
      if k' == k then (k, v) :: rest else (k', v') :: mapSet rest k v

/-! ## Dominance aggregator (src: domain/dominance.ts, `computeDominance`) -/

/-- The all-zero result for a cell with no votes in range. -/
def zeroResult (row col : ℕ) : CellResult :=
  { row := row, col := col, winnerBeerId := none, winnerCount := 0,
    totalCount := 0, voteCounts := [], runnerUpBeerId := none,
    runnerUpCount := 0, margin := 0 }

/-- The maximum vote radius used for the bounding-box prefilter
(src: the `maxRadius` loop in `computeDominance`). -/
def maxRadiusOf (radiusKm : ℚ) (weightedVotes : List WeightedVote) : ℚ :=
  if weightedVotes.isEmpty then radiusKm
  else weightedVotes.foldl (fun m wv => if m < wv.radiusKm then wv.radiusKm else m) radiusKm

/-- Per-cell accumulation state: the per-label weight map and the total weight. -/
abbrev AccumState := List (String × ℚ) × ℚ

/-- The bounding-box half-width in degrees of latitude
(src: `radiusDegLat` in `computeDominance`). -/
def radiusDegLatOf (radiusKm : ℚ) (weightedVotes : List WeightedVote) : ℚ :=
  maxRadiusOf radiusKm weightedVotes / 111.32

/-- The bounding-box half-width in degrees of longitude, evaluated at 45°
(src: `radiusDegLon` in `computeDominance`). -/
noncomputable def radiusDegLonOf (radiusKm : ℚ) (weightedVotes : List WeightedVote) : ℝ :=
  (maxRadiusOf radiusKm weightedVotes : ℝ) / (111.32 * Real.cos (45 * DEG_TO_RAD))

/-- A flat vote passes the bounding-box prefilter for `cell` and lies within
the shared radius: exactly the condition under which `computeDominance` adds
its weight (1) to the cell's accumulator. -/
noncomputable def flatGate (cell : GridCell) (radiusKm : ℚ)
    (weightedVotes : List WeightedVote) (v : Vote) : Prop :=
  ¬(|v.lat - cell.centerLat| > (radiusDegLatOf radiusKm weightedVotes : ℝ) ∨
      |v.lon - cell.centerLon| > radiusDegLonOf radiusKm weightedVotes) ∧
    haversineDistanceKm cell.centerLat cell.centerLon v.lat v.lon ≤ (radiusKm : ℝ)

/-- A weighted vote passes the bounding-box prefilter for `cell` and lies
within its own radius: exactly the condition under which `computeDominance`
adds its weight to the cell's accumulator. -/
noncomputable def weightedGate (cell : GridCell) (radiusKm : ℚ)
    (weightedVotes : List WeightedVote) (wv : WeightedVote) : Prop :=
  ¬(|wv.lat - cell.centerLat| > (radiusDegLatOf radiusKm weightedVotes : ℝ) ∨
      |wv.lon - cell.centerLon| > radiusDegLonOf radiusKm weightedVotes) ∧
    haversineDistanceKm cell.centerLat cell.centerLon wv.lat wv.lon ≤ (wv.radiusKm : ℝ)

open Classical in
/-- Fold one flat vote (weight 1, shared radius) into the accumulator
(src: the first inner loop of `computeDominance`). -/
noncomputable def stepFlatVote (cell : GridCell) (radiusDegLat : ℚ) (radiusDegLon : ℝ)
    (radiusKm : ℚ) (st : AccumState) (vote : Vote) : AccumState :=
  if |vote.lat - cell.centerLat| > (radiusDegLat : ℝ) ∨
      |vote.lon - cell.centerLon| > radiusDegLon then st
  else if haversineDistanceKm cell.centerLat cell.centerLon vote.lat vote.lon ≤
      (radiusKm : ℝ) then
    (mapSet st.1 vote.beerId (mapGetD st.1 vote.beerId 0 + 1), st.2 + 1)
  else st

open Classical in
/-- Fold one weighted vote (custom weight and radius) into the accumulator
(src: the second inner loop of `computeDominance`). -/
noncomputable def stepWeightedVote (cell : GridCell) (radiusDegLat : ℚ) (radiusDegLon : ℝ)
    (st : AccumState) (wv : WeightedVote) : AccumState :=
  if |wv.lat - cell.centerLat| > (radiusDegLat : ℝ) ∨
      |wv.lon - cell.centerLon| > radiusDegLon then st
  else if haversineDistanceKm cell.centerLat cell.centerLon wv.lat wv.lon ≤
      (wv.radiusKm : ℝ) then
    (mapSet st.1 wv.beerId (mapGetD st.1 wv.beerId 0 + wv.weight), st.2 + wv.weight)
  else st

/-- The per-label weight accumulator of one cell: all flat votes, then all
weighted votes, gated by the bounding-box prefilter and the exact haversine
distance (src: the per-cell loops of `computeDominance`). -/
noncomputable def cellWeights (cell : GridCell) (votes : List Vote) (radiusKm : ℚ)
    (weightedVotes : List WeightedVote) : AccumState :=
  let radiusDegLat : ℚ := radiusDegLatOf radiusKm weightedVotes
  let radiusDegLon : ℝ := radiusDegLonOf radiusKm weightedVotes
  let st := votes.foldl (stepFlatVote cell radiusDegLat radiusDegLon radiusKm) ([], 0)
  if weightedVotes.isEmpty then st
  else weightedVotes.foldl (stepWeightedVote cell radiusDegLat radiusDegLon) st

/-- Winner/runner-up scan state (src: the `winnerId`/`runnerUpId` locals). -/
structure WScan where
  winnerId : Option String
  winnerW : ℚ
  ruId : Option String
  ruW : ℚ
  deriving DecidableEq

/-- One step of the winner/runner-up scan over the per-label weight map
(src: the `for (const [beerId, w] of weights)` loop). -/
def wstep (s : WScan) (p : String × ℚ) : WScan :=
  if s.winnerW < p.2 then
    { winnerId := some p.1, winnerW := p.2, ruId := s.winnerId, ruW := s.winnerW }
  else if s.ruW < p.2 then
    { s with ruId := some p.1, ruW := p.2 }
  else s

def wscan (m : List (String × ℚ)) : WScan :=
  m.foldl wstep { winnerId := none, winnerW := 0, ruId := none, ruW := 0 }

/-- Assemble one cell's result from its accumulated weights
(src: the tail of the per-cell loop of `computeDominance`). -/
def buildCellResult (row col : ℕ) (acc : AccumState) : CellResult :=
  if acc.2 = 0 then zeroResult row col
  else
    let s := wscan acc.1
    let margin : ℚ := if acc.2 ≥ 0.001 then (s.winnerW - s.ruW) / acc.2 else 1
    { row := row, col := col, winnerBeerId := s.winnerId, winnerCount := s.winnerW,
      totalCount := acc.2, voteCounts := acc.1, runnerUpBeerId := s.ruId,
      runnerUpCount := s.ruW, margin := margin }

/-- Compute dominance for a set of grid cells given votes and a radius
(src: `computeDominance`). -/
noncomputable def computeDominance (cells : List GridCell) (votes : List Vote)
    (radiusKm : ℚ) (weightedVotes : List WeightedVote) : List CellResult :=
  if votes.isEmpty && weightedVotes.isEmpty then
    cells.map fun c => zeroResult c.row c.col
  else
    cells.map fun c => buildCellResult c.row c.col (cellWeights c votes radiusKm weightedVotes)

/-! ## Winner-label grids (the flat `(rows*cols)` nullable label array) -/

/-- Build the flat winner-label grid from the cell results
(src: the `grid` initialisation shared by both post-processing passes). -/
def gridOf (cells : List CellResult) (cols size : ℕ) : List (Option String) :=
  cells.foldl (fun g c => g.set (c.row * cols + c.col) c.winnerBeerId)
    (List.replicate size none)

/-- The 8-connected neighborhood offsets, in the `dr`/`dc` loop order of
`smoothWinnerGrid` (self `(0,0)` included). -/
def offsets8 : List (ℤ × ℤ) :=
  [(-1, -1), (-1, 0), (-1, 1), (0, -1), (0, 0), (0, 1), (1, -1), (1, 0), (1, 1)]

/-- The non-null labels of the in-bounds 8-connected neighbors (self included)
of `(r, c)`, in scan order (src: the neighbor loop of `smoothWinnerGrid`). -/
def neighborLabels (grid : List (Option String)) (rows cols r c : ℕ) : List String :=
  offsets8.filterMap fun d =>
    let nr : ℤ := (r : ℤ) + d.1
    let nc : ℤ := (c : ℤ) + d.2
    if nr < 0 ∨ (rows : ℤ) ≤ nr ∨ nc < 0 ∨ (cols : ℤ) ≤ nc then none
    else grid.getD (nr * cols + nc).toNat none

/-- Fold a list of labels into an insertion-ordered count map
(src: the `neighborCounts` map of `smoothWinnerGrid`). -/
def countFold (labels : List String) : List (String × ℕ) :=
  labels.foldl (fun m l => mapSet m l (mapGetD m l 0 + 1)) []

/-- Pick the first strict-maximum entry of the count map, starting from the
cell's current label with count 0 (src: the `best`/`bestCount` fold). -/
def bestLabel (current : String) (counts : List (String × ℕ)) : String :=
  (counts.foldl (fun (p : String × ℕ) q => if p.2 < q.2 then q else p) (current, 0)).1

/-- One smoothing round: build the new buffer from the settled previous grid
(src: the body of the `iter` loop of `smoothWinnerGrid`). -/
def smoothRound (grid : List (Option String)) (rows cols : ℕ) : List (Option String) :=
  (List.range (rows * cols)).map fun idx =>
    match grid.getD idx none with
    | none => none
    | some current =>
        some (bestLabel current (countFold (neighborLabels grid rows cols (idx / cols) (idx % cols))))

/-- Run `n` smoothing rounds (src: the `iter` loop with the buffer copy-back). -/
def smoothLoop (rows cols : ℕ) : ℕ → List (Option String) → List (Option String)
  | 0, g => g
  | n + 1, g => smoothLoop rows cols n (smoothRound g rows cols)

/-- Morphological smoothing of the winner grid (src: `smoothWinnerGrid`).
The in-place mutation of `cells` is modelled as returning the updated list. -/
def smoothWinnerGrid (cells : List CellResult) (rows cols iterations : ℕ) :
    List CellResult :=
  if iterations = 0 then cells
  else
    let grid := gridOf cells cols (rows * cols)
    let final := smoothLoop rows cols iterations grid
    cells.map fun c => { c with winnerBeerId := final.getD (c.row * cols + c.col) none }

/-- The four 4-connected neighbor indices of cell index `ci`, with `-1` for an
out-of-bounds direction, in up/down/left/right order (src: the `neighbors`
arrays of `mergeSmallIslands` and `extractRegions`). -/
def neighbors4 (rows cols ci : ℕ) : List ℤ :=
  let cr := ci / cols
  let cc := ci % cols
  [if 0 < cr then ((cr : ℤ) - 1) * cols + cc else -1,
   if cr < rows - 1 then ((cr : ℤ) + 1) * cols + cc else -1,
   if 0 < cc then (cr : ℤ) * cols + ((cc : ℤ) - 1) else -1,
   if cc < cols - 1 then (cr : ℤ) * cols + ((cc : ℤ) + 1) else -1]

/-- Stack-based flood fill over same-label cells: pops `ci`, pushes its
unvisited same-label 4-neighbors, and returns the popped cells in pop order
together with the updated visited array (src: the `while (queue.length > 0)`
loops of `mergeSmallIslands` and `extractRegions`; `fuel` bounds the number
of pops, which the callers make large enough to never run out). -/
def flood (grid : List (Option String)) (rows cols : ℕ) (lab : String) :
    ℕ → List ℕ → List Bool → List ℕ × List Bool
  | 0, _, vis => ([], vis)
  | _ + 1, [], vis => ([], vis)
  | fuel + 1, ci :: rest, vis =>
      let st := (neighbors4 rows cols ci).foldl
        (fun (p : List ℕ × List Bool) ni =>
          if ni < 0 then p
          else if p.2.getD ni.toNat false then p
          else if grid.getD ni.toNat none ≠ some lab then p
          else (ni.toNat :: p.1, p.2.set ni.toNat true))
        (rest, vis)
      let res := flood grid rows cols lab fuel st.1 st.2
      (ci :: res.1, res.2)

/-- Count the different non-null labels 4-adjacent to the region's cells, on
the given (current) grid, region cells in the given order
(src: the `neighborBeerCounts` loop of `mergeSmallIslands`). -/
def regionNeighborCounts (grid : List (Option String)) (rows cols : ℕ)
    (beerId : String) (regionCells : List ℕ) : List (String × ℕ) :=
  regionCells.foldl (fun m ci =>
    (neighbors4 rows cols ci).foldl (fun m (ni : ℤ) =>
      if ni < 0 then m
      else
        match grid.getD ni.toNat none with
        | none => m
        | some nb => if nb == beerId then m else mapSet m nb (mapGetD m nb 0 + 1)) m) []

/-- Overwrite the grid entries at all the given indices with one value
(src: the reassignment loop `for (const ci of regionCells) grid[ci] = replacementBeer`). -/
def setAll (l : List ℕ) (v : Option String) (g : List (Option String)) :
    List (Option String) :=
  l.foldl (fun g ci => g.set ci v) g

/-- Pick the first strict-maximum entry of a count map, or `none` if the map
is empty (src: the `replacementBeer` fold of `mergeSmallIslands`). -/
def maxCountLabel (counts : List (String × ℕ)) : Option String :=
  (counts.foldl (fun (p : Option String × ℕ) q =>
    if p.2 < q.2 then (some q.1, q.2) else p) (none, 0)).1

/-- One position of the outer scan of `mergeSmallIslands`: skip visited or
null cells, flood-fill the region, and reassign it when it is small and has a
qualifying neighbor label (src: the body of the `r`/`c` loops). -/
def mergeScanStep (rows cols minSize : ℕ) (st : List (Option String) × List Bool)
    (idx : ℕ) : List (Option String) × List Bool :=
  if st.2.getD idx false then st
  else
    match st.1.getD idx none with
    | none => (st.1, st.2.set idx true)
    | some beerId =>
        let fl := flood st.1 rows cols beerId (rows * cols + 1) [idx] (st.2.set idx true)
        if minSize ≤ fl.1.length then (st.1, fl.2)
        else
          match maxCountLabel (regionNeighborCounts st.1 rows cols beerId fl.1) with
          | none => (st.1, fl.2)
          | some repl => (setAll fl.1 (some repl) st.1, fl.2)

/-- Merge small islands into their most common neighboring region
(src: `mergeSmallIslands`); in-place mutation is modelled as returning the
updated cell list. -/
def mergeSmallIslands (cells : List CellResult) (rows cols minSize : ℕ) :
    List CellResult :=
  if minSize ≤ 1 then cells
  else
    let grid0 := gridOf cells cols (rows * cols)
    let vis0 : List Bool := List.replicate (rows * cols) false
    let final := ((List.range (rows * cols)).foldl (mergeScanStep rows cols minSize)
      (grid0, vis0)).1
    cells.map fun c => { c with winnerBeerId := final.getD (c.row * cols + c.col) none }

/-! ## Region extractor (src: regions.ts, `extractRegions`) -/

structure BoundingBox where
  minRow : ℕ
  maxRow : ℕ
  minCol : ℕ
  maxCol : ℕ
  deriving DecidableEq

structure Region where
  id : String
  beerId : String
  cellCount : ℕ
  centroidLat : ℝ
  centroidLon : ℝ
  boundingBox : BoundingBox
  avgMargin : ℚ
  totalVotes : ℚ
  runnerUpBeerId : Option String

/-- Lookup of the cell result stored at flat index `ci` (src: the `cellMap`
of `extractRegions`; a later cell with the same `(row, col)` overwrites an
earlier one, hence the reversed search). -/
def cellAt (cells : List CellResult) (cols ci : ℕ) : Option CellResult :=
  cells.reverse.find? fun c => c.row * cols + c.col == ci

/-- Build the `Region` record for the component flooded from `(r, c)` whose
popped cells are `regionCells` (src: the statistics accumulation and the
`regions.push` of `extractRegions`). -/
noncomputable def buildRegion (data : DominanceResult) (colsN : ℕ) (beerId : String)
    (r c : ℕ) (regionCells : List ℕ) : Region :=
  let gs := data.gridSpec
  let cellDLat := metersToDegLat gs.cellSizeMeters
  let count := regionCells.length
  let sumRow := (regionCells.map fun ci => ci / colsN).sum
  let sumCol := (regionCells.map fun ci => ci % colsN).sum
  let minRow := regionCells.foldl (fun m ci => min m (ci / colsN)) r
  let maxRow := regionCells.foldl (fun m ci => max m (ci / colsN)) r
  let minCol := regionCells.foldl (fun m ci => min m (ci % colsN)) c
  let maxCol := regionCells.foldl (fun m ci => max m (ci % colsN)) c
  let marginSum := regionCells.foldl (fun s ci =>
    match cellAt data.cells colsN ci with
    | some cd => s + cd.margin
    | none => s) (0 : ℚ)
  let votesSum := regionCells.foldl (fun s ci =>
    match cellAt data.cells colsN ci with
    | some cd => s + cd.totalCount
    | none => s) (0 : ℚ)
  let runnerUpCounts := regionCells.foldl (fun m ci =>
    match cellAt data.cells colsN ci with
    | some cd =>
        match cd.runnerUpBeerId with
        | some ru => if ru.isEmpty then m else mapSet m ru (mapGetD m ru 0 + 1)
        | none => m
    | none => m) ([] : List (String × ℕ))
  let avgRow : ℝ := (sumRow : ℝ) / (count : ℝ)
  let avgCol : ℝ := (sumCol : ℝ) / (count : ℝ)
  let lat := gs.minLat + (avgRow + 0.5) * cellDLat
  let dLon := metersToDegLon gs.cellSizeMeters lat
  let lon := gs.minLon + (avgCol + 0.5) * dLon
  { id := beerId ++ "@" ++ toString minRow ++ "," ++ toString minCol,
    beerId := beerId,
    cellCount := count,
    centroidLat := lat,
    centroidLon := lon,
    boundingBox := { minRow := minRow, maxRow := maxRow, minCol := minCol, maxCol := maxCol },
    avgMargin := if 0 < count then marginSum / (count : ℚ) else 1,
    totalVotes := votesSum,
    runnerUpBeerId := maxCountLabel runnerUpCounts }

/-- One position of the outer scan of `extractRegions`: skip visited or null
cells, flood-fill the component and push its `Region`. -/
noncomputable def extractScanStep (data : DominanceResult) (grid : List (Option String))
    (rowsN colsN : ℕ) (st : List Bool × List Region) (idx : ℕ) :
    List Bool × List Region :=
  if st.1.getD idx false then st
  else
    match grid.getD idx none with
    | none => (st.1.set idx true, st.2)
    | some beerId =>
        let fl := flood grid rowsN colsN beerId (rowsN * colsN + 1) [idx] (st.1.set idx true)
        (fl.2, st.2 ++ [buildRegion data colsN beerId (idx / colsN) (idx % colsN) fl.1])

/-- Extract connected regions from a DominanceResult via flood fill, sorted
by `cellCount` descending (src: `extractRegions`; the final comparator sort
is modelled as a stable insertion sort by descending `cellCount`). -/
noncomputable def extractRegions (data : DominanceResult) : List Region :=
  let rowsN := data.rows.toNat
  let colsN := data.cols.toNat
  let grid := gridOf data.cells colsN (rowsN * colsN)
  let vis0 : List Bool := List.replicate (rowsN * colsN) false
  let regions := ((List.range (rowsN * colsN)).foldl
    (extractScanStep data grid rowsN colsN) (vis0, [])).2
  regions.insertionSort fun a b => b.cellCount ≤ a.cellCount

/-! ## Cell lookup (src: the `findCellAt` of the hover/click handlers) -/

open Classical in
/-- Find the cell at a given lat/lon position (src: `findCellAt`). -/
noncomputable def findCellAt (lat lon : ℝ) (data : DominanceResult) : Option CellResult :=
  let gs := data.gridSpec
  let cellDLat := metersToDegLat gs.cellSizeMeters
  let row : ℤ := ⌊(lat - gs.minLat) / cellDLat⌋
  if row < 0 ∨ data.rows ≤ row then none
  else
    let cellLat := gs.minLat + ((row : ℝ) + 0.5) * cellDLat
    let cellDLon := metersToDegLon gs.cellSizeMeters cellLat
    let col : ℤ := ⌊(lon - gs.minLon) / cellDLon⌋
    if col < 0 ∨ data.cols ≤ col then none
    else
      let idx := (row * data.cols + col).toNat
      let fallback := data.cells.find? fun c => (c.row : ℤ) == row && (c.col : ℤ) == col
      match data.cells.get? idx with
      | some c => if (c.row : ℤ) = row ∧ (c.col : ℤ) = col then some c else fallback
      | none => fallback

/-! ## Specification-side definitions used in the claim statements -/

/-- C2 failing input: a grid spec with `minLat = maxLat` (violating the
`minLat < maxLat` precondition). -/
def invalidGridSpec : GridSpec :=
  { minLat := 0, maxLat := 0, minLon := 11, maxLon := 12, cellSizeMeters := 2000 }

/-- Everything except the winner label agrees between two cell results. -/
def frameAgrees (a b : CellResult) : Prop :=
  a.row = b.row ∧ a.col = b.col ∧ a.winnerCount = b.winnerCount ∧
    a.totalCount = b.totalCount ∧ a.voteCounts = b.voteCounts ∧
    a.runnerUpBeerId = b.runnerUpBeerId ∧ a.runnerUpCount = b.runnerUpCount ∧
    a.margin = b.margin

open Classical in
/-- The (label, weight) contributions a cell actually receives: flat votes
then weighted votes, each gated by the bounding-box prefilter *and* the
applicable radius.  This is the specification-side description of the
aggregation; the amended C1 states that `cellWeights` accumulates exactly
these contributions. -/
noncomputable def gatedContribs (cell : GridCell) (votes : List Vote) (radiusKm : ℚ)
    (wvotes : List WeightedVote) : List (String × ℚ) :=
  (votes.filterMap fun v =>
      if flatGate cell radiusKm wvotes v then some (v.beerId, (1 : ℚ)) else none) ++
    (wvotes.filterMap fun w =>
      if weightedGate cell radiusKm wvotes w then some (w.beerId, w.weight) else none)

/-- The weight-map fold common to both vote loops: add one (label, weight)
contribution to the accumulator. -/
def accumStep (st : AccumState) (p : String × ℚ) : AccumState :=
  (mapSet st.1 p.1 (mapGetD st.1 p.1 0 + p.2), st.2 + p.2)

/-- C7 witness grid spec: a 2-row, 1-column grid symmetric about the
equator, with a cell size of exactly one degree of latitude. -/
def c7spec : GridSpec :=
  { minLat := -1, maxLat := 1, minLon := 0, maxLon := 1, cellSizeMeters := 111320 }

/-- C1 counterexample cell: centered at latitude 0, longitude 0. -/
def cexCell : GridCell := ⟨0, 0, 0, 0⟩

/-- C1 counterexample vote: 1.0001° of latitude due north of the cell (about
111.21 km by the haversine), weight 5, own radius 111.3 km. -/
def cexVote : WeightedVote :=
  { id := "w1", lat := 1.0001, lon := 0, beerId := "X", weight := 5,
    radiusKm := 111.3, source := "drink" }

/-- The distinct labels of `L` in order of first occurrence. -/
def firstOccur (L : List String) : List String :=
  L.foldl (fun acc x => if x ∈ acc then acc else acc ++ [x]) []

/-- Specification-side majority choice (from the claim's words): the
first-encountered label whose count in `L` is maximal; `current` if `L` has
no labels at all. -/
def specBest (current : String) (L : List String) : String :=
  match L.find? (fun x => L.all fun y => L.count y ≤ L.count x) with
  | some x => x
  | none => current

/-- Specification-side smoothing round (from the claim's words): a null cell
stays null; a non-null cell takes the most frequent non-null label among its
in-bounds 8-connected neighbors including itself, ties resolved to the
first-encountered label in scan order. -/
def specSmoothRound (grid : List (Option String)) (rows cols : ℕ) : List (Option String) :=
  (List.range (rows * cols)).map fun idx =>
    match grid.getD idx none with
    | none => none
    | some current =>
        some (specBest current (neighborLabels grid rows cols (idx / cols) (idx % cols)))

/-- A cell result carrying only a winner label, all numeric fields zero:
the shape of data fed to the post-processing passes in tests. -/
def plainCell (r c : ℕ) (w : Option String) : CellResult :=
  { row := r, col := c, winnerBeerId := w, winnerCount := 0, totalCount := 0,
    voteCounts := [], runnerUpBeerId := none, runnerUpCount := 0, margin := 0 }

/-- C6 counterexample grid: the 1 x 7 strip C C C A B A A. -/
def cexStrip : List CellResult :=
  [plainCell 0 0 (some "C"), plainCell 0 1 (some "C"), plainCell 0 2 (some "C"),
   plainCell 0 3 (some "A"), plainCell 0 4 (some "B"), plainCell 0 5 (some "A"),
   plainCell 0 6 (some "A")]

/-- 1 x 3 strip A A B: a 2-cell A region adjacent only to B. -/
def c6pair : List CellResult :=
  [plainCell 0 0 (some "A"), plainCell 0 1 (some "A"), plainCell 0 2 (some "B")]

/-- 1 x 4 strip A A B B: two regions of exactly 2 cells each. -/
def c6even : List CellResult :=
  [plainCell 0 0 (some "A"), plainCell 0 1 (some "A"),
   plainCell 0 2 (some "B"), plainCell 0 3 (some "B")]

/-- 1 x 2 strip null A: a 1-cell A region whose only neighbor is null. -/
def c6null : List CellResult :=
  [plainCell 0 0 none, plainCell 0 1 (some "A")]

/-- One step of same-label 4-adjacency on the flat winner grid (from the
claim's words): `j` is an in-bounds 4-neighbor of `i` and both cells carry
the same non-null label. -/
def labStep (grid : List (Option String)) (rows cols : ℕ) (i j : ℕ) : Prop :=
  ((j : ℤ) ∈ neighbors4 rows cols i) ∧ grid.getD i none ≠ none ∧
    grid.getD j none = grid.getD i none

/-- Same-label 4-connectivity: the reflexive-transitive closure of
`labStep`.  A maximal 4-connected same-label region is an equivalence class
of non-null cells under `Conn`. -/
def Conn (grid : List (Option String)) (rows cols : ℕ) : ℕ → ℕ → Prop :=
  Relation.ReflTransGen (labStep grid rows cols)

/-- The winner-label grid of a dominance result, laid out exactly as the
region extractor lays it out. -/
def cellGrid (data : DominanceResult) : List (Option String) :=
  gridOf data.cells data.cols.toNat (data.rows.toNat * data.cols.toNat)

open Classical in
/-- The least flat index of each maximal same-label component (from the
claim's words): the non-null cells that are minimal in their component;
exactly one index per maximal component. -/
noncomputable def leadersOf (data : DominanceResult) : List ℕ :=
  (List.range (data.rows.toNat * data.cols.toNat)).filter fun i =>
    decide ((cellGrid data).getD i none ≠ none ∧
      ∀ j, Conn (cellGrid data) data.rows.toNat data.cols.toNat i j → i ≤ j)

open Classical in
/-- The maximal component of flat index `i`, as the increasing list of its
member indices. -/
noncomputable def compListOf (data : DominanceResult) (i : ℕ) : List ℕ :=
  (List.range (data.rows.toNat * data.cols.toNat)).filter fun j =>
    decide (Conn (cellGrid data) data.rows.toNat data.cols.toNat i j)

/-- C8 concrete instance: a 3 x 3 dominance result entirely labeled A. -/
noncomputable def data9 : DominanceResult :=
  { rows := 3, cols := 3,
    cells := (List.range 9).map fun i => plainCell (i / 3) (i % 3) (some "A"),
    gridSpec := { minLat := 0, maxLat := 1, minLon := 0, maxLon := 1, cellSizeMeters := 1 } }

/-! ## Basic lemmas about the aggregator -/

lemma foldl_id_of {α β : Type*} (f : β → α → β) (l : List α) (s : β)
    (h : ∀ s' x, x ∈ l → f s' x = s') : l.foldl f s = s := by
  induction l generalizing s with
  | nil => rfl
  | cons a l ih =>
      rw [List.foldl_cons, h s a (List.mem_cons_self a l)]
      exact ih s fun s' x hx => h s' x (List.mem_cons_of_mem a hx)

/-- Pointwise description of `computeDominance`: the result is the per-cell
map of either the zero result or the accumulate-and-scan computation. -/
lemma computeDominance_getElem? (cells : List GridCell) (votes : List Vote)
    (radiusKm : ℚ) (wvotes : List WeightedVote) (i : ℕ) :
    (computeDominance cells votes radiusKm wvotes)[i]? =
      cells[i]?.map (fun c =>
        if votes.isEmpty && wvotes.isEmpty then zeroResult c.row c.col
        else buildCellResult c.row c.col (cellWeights c votes radiusKm wvotes)) := by
  by_cases h : (votes.isEmpty && wvotes.isEmpty) = true <;>
    simp [computeDominance, h, List.getElem?_map]

lemma length_computeDominance (cells : List GridCell) (votes : List Vote)
    (radiusKm : ℚ) (wvotes : List WeightedVote) :
    (computeDominance cells votes radiusKm wvotes).length = cells.length := by
  by_cases h : (votes.isEmpty && wvotes.isEmpty) = true <;> simp [computeDominance, h]

lemma stepFlatVote_of_not_gate (cell : GridCell) (radiusKm : ℚ)
    (wvotes : List WeightedVote) (st : AccumState) (v : Vote)
    (h : ¬flatGate cell radiusKm wvotes v) :
    stepFlatVote cell (radiusDegLatOf radiusKm wvotes) (radiusDegLonOf radiusKm wvotes)
      radiusKm st v = st := by
  unfold stepFlatVote
  by_cases hA : |v.lat - cell.centerLat| > ((radiusDegLatOf radiusKm wvotes : ℚ) : ℝ) ∨
      |v.lon - cell.centerLon| > radiusDegLonOf radiusKm wvotes
  · rw [if_pos hA]
  · rw [if_neg hA, if_neg]
    intro hB
    exact h ⟨hA, hB⟩

lemma stepWeightedVote_of_not_gate (cell : GridCell) (radiusKm : ℚ)
    (wvotes : List WeightedVote) (st : AccumState) (wv : WeightedVote)
    (h : ¬weightedGate cell radiusKm wvotes wv) :
    stepWeightedVote cell (radiusDegLatOf radiusKm wvotes) (radiusDegLonOf radiusKm wvotes)
      st wv = st := by
  unfold stepWeightedVote
  by_cases hA : |wv.lat - cell.centerLat| > ((radiusDegLatOf radiusKm wvotes : ℚ) : ℝ) ∨
      |wv.lon - cell.centerLon| > radiusDegLonOf radiusKm wvotes
  · rw [if_pos hA]
  · rw [if_neg hA, if_neg]
    intro hB
    exact h ⟨hA, hB⟩

/-- A cell within range of no vote accumulates the empty weight map. -/
lemma cellWeights_of_no_gate (cell : GridCell) (votes : List Vote) (radiusKm : ℚ)
    (wvotes : List WeightedVote)
    (hflat : ∀ v ∈ votes, ¬flatGate cell radiusKm wvotes v)
    (hw : ∀ w ∈ wvotes, ¬weightedGate cell radiusKm wvotes w) :
    cellWeights cell votes radiusKm wvotes = ([], 0) := by
  unfold cellWeights
  have h1 : votes.foldl (stepFlatVote cell (radiusDegLatOf radiusKm wvotes)
      (radiusDegLonOf radiusKm wvotes) radiusKm) ([], 0) = ([], 0) :=
    foldl_id_of _ _ _ fun s' x hx => stepFlatVote_of_not_gate _ _ _ _ _ (hflat x hx)
  have h2 : ∀ st : AccumState, wvotes.foldl (stepWeightedVote cell
      (radiusDegLatOf radiusKm wvotes) (radiusDegLonOf radiusKm wvotes)) st = st :=
    fun st => foldl_id_of _ _ _ fun s' x hx => stepWeightedVote_of_not_gate _ _ _ _ _ (hw x hx)
  simp only [radiusDegLatOf, radiusDegLonOf] at h1 h2 ⊢
  rw [h1]
  by_cases he : wvotes.isEmpty <;> simp [he, h2]

lemma buildCellResult_zero (row col : ℕ) : buildCellResult row col ([], 0) = zeroResult row col := by
  simp [buildCellResult]

/-- C2: the spec requires a fatal precondition failure (exception) for an
invalid grid spec, but the code performs no validation: on a spec with
`minLat = maxLat` grid enumeration silently returns zero rows and an empty
cell list, and dominance computation then silently returns an empty result —
exactly the "empty grid" outcome the claim says cannot happen.  (This theorem
documents the code's actual behaviour at the failing input; the claimed
exception does not exist anywhere on this path.) -/
theorem claim_C2_invalid_spec_returns_empty_grid :
    invalidGridSpec.maxLat ≤ invalidGridSpec.minLat ∧
    (precomputeGrid invalidGridSpec).rows = 0 ∧
    (precomputeGrid invalidGridSpec).cells = [] ∧
    ∀ (votes : List Vote) (radiusKm : ℚ) (wvotes : List WeightedVote),
      computeDominance (precomputeGrid invalidGridSpec).cells votes radiusKm wvotes = [] := by
  refine ⟨le_refl _, ?_, ?_, ?_⟩
  · norm_num [precomputeGrid, invalidGridSpec]
  · norm_num [precomputeGrid, invalidGridSpec]
  · intro votes radiusKm wvotes
    have h : (precomputeGrid invalidGridSpec).cells = [] := by
      norm_num [precomputeGrid, invalidGridSpec]
    rw [h]
    by_cases hb : (votes.isEmpty && wvotes.isEmpty) = true <;> simp [computeDominance, hb]

/-- C4: a cell within range of no vote (every flat and weighted vote either
fails the bounding-box prefilter or lies beyond the applicable radius) gets
the all-zero result: null winner, zero winner/total weight, empty per-label
map, null runner-up and margin 0.  With an empty vote list the hypotheses
hold vacuously for every cell. -/
theorem claim_C4_no_votes_in_range_zero_result (cells : List GridCell)
    (votes : List Vote) (radiusKm : ℚ) (wvotes : List WeightedVote) (i : ℕ)
    (hi : i < cells.length)
    (hflat : ∀ v ∈ votes, ¬flatGate (cells.getD i default) radiusKm wvotes v)
    (hw : ∀ w ∈ wvotes, ¬weightedGate (cells.getD i default) radiusKm wvotes w) :
    (computeDominance cells votes radiusKm wvotes).getD i default =
      zeroResult (cells.getD i default).row (cells.getD i default).col := by
  have hc : cells[i]? = some cells[i] := List.getElem?_eq_getElem hi
  have hcd : cells.getD i default = cells[i] := by
    simp [List.getD_eq_getElem?_getD, hc]
  rw [List.getD_eq_getElem?_getD, computeDominance_getElem?, hc, hcd]
  by_cases hb : (votes.isEmpty && wvotes.isEmpty) = true
  · simp [hb]
  · have hz : cellWeights cells[i] votes radiusKm wvotes = ([], 0) :=
      cellWeights_of_no_gate _ _ _ _ (hcd ▸ hflat) (hcd ▸ hw)
    simp [hb, hz, buildCellResult_zero]

/-- Witness for C4 at a concrete input: one cell, no votes at all. -/
theorem claim_C4_witness :
    (computeDominance [⟨0, 0, 0, 0⟩] [] 1 []).getD 0 default =
      zeroResult (([⟨0, 0, 0, 0⟩] : List GridCell).getD 0 default).row
        (([⟨0, 0, 0, 0⟩] : List GridCell).getD 0 default).col :=
  claim_C4_no_votes_in_range_zero_result [⟨0, 0, 0, 0⟩] [] 1 [] 0 (by simp)
    (by simp) (by simp)

lemma frameAgrees_refl (a : CellResult) : frameAgrees a a := by
  simp [frameAgrees]

lemma frameAgrees_update (c : CellResult) (w : Option String) :
    frameAgrees { c with winnerBeerId := w } c := by
  simp [frameAgrees]

/-- C9: both post-processing passes modify at most the winner-label field of
each cell: at every index, row, col, winner weight, total weight, per-label
weight map, runner-up label, runner-up weight and margin are unchanged by
`smoothWinnerGrid` and by `mergeSmallIslands`. -/
theorem claim_C9_passes_touch_only_winner_label (cells : List CellResult)
    (rows cols iterations minSize : ℕ) (i : ℕ) (hi : i < cells.length) :
    frameAgrees ((smoothWinnerGrid cells rows cols iterations).getD i default)
        (cells.getD i default) ∧
      frameAgrees ((mergeSmallIslands cells rows cols minSize).getD i default)
        (cells.getD i default) := by
  have hc : cells[i]? = some cells[i] := List.getElem?_eq_getElem hi
  have hcd : cells.getD i default = cells[i] := by
    simp [List.getD_eq_getElem?_getD, hc]
  constructor
  · by_cases h0 : iterations = 0
    · simp only [smoothWinnerGrid, h0, if_pos rfl]
      exact frameAgrees_refl _
    · simp only [smoothWinnerGrid, h0, if_neg h0, ite_false]
      rw [List.getD_eq_getElem?_getD, List.getElem?_map, hc, hcd]
      exact frameAgrees_update _ _
  · by_cases h0 : minSize ≤ 1
    · simp only [mergeSmallIslands, if_pos h0]
      exact frameAgrees_refl _
    · simp only [mergeSmallIslands, if_neg h0]
      rw [List.getD_eq_getElem?_getD, List.getElem?_map, hc, hcd]
      exact frameAgrees_update _ _

/-- Witness for C9 at a concrete input: a one-cell grid. -/
theorem claim_C9_witness :
    frameAgrees ((smoothWinnerGrid [zeroResult 0 0] 1 1 2).getD 0 default)
        (([zeroResult 0 0] : List CellResult).getD 0 default) ∧
      frameAgrees ((mergeSmallIslands [zeroResult 0 0] 1 1 8).getD 0 default)
        (([zeroResult 0 0] : List CellResult).getD 0 default) :=
  claim_C9_passes_touch_only_winner_label [zeroResult 0 0] 1 1 2 8 0 (by simp)

/-! ## Association-map lemmas -/

lemma mapGetD_mapSet_self {α : Type} (m : List (String × α)) (k : String) (v d : α) :
    mapGetD (mapSet m k v) k d = v := by
  induction m with
  | nil => simp [mapSet, mapGetD]
  | cons p m ih =>
      by_cases h : p.1 == k
      · simp [mapSet, h, mapGetD]
      · simpa [mapSet, h, mapGetD, List.find?] using ih

lemma mapGetD_mapSet_ne {α : Type} (m : List (String × α)) (k k' : String) (v : α)
    (d : α) (h : k' ≠ k) :
    mapGetD (mapSet m k v) k' d = mapGetD m k' d := by
  have hbk : (k == k') = false := by
    simp [beq_iff_eq]
    exact fun he => h he.symm
  induction m with
  | nil => simp [mapSet, mapGetD, List.find?, hbk]
  | cons p m ih =>
      by_cases hp : p.1 == k
      · have hp1 : p.1 = k := by simpa [beq_iff_eq] using hp
        have hpk' : (p.1 == k') = false := by
          simp [beq_iff_eq, hp1]
          exact fun he => h he.symm
        simp [mapSet, hp, mapGetD, List.find?, hbk, hpk']
      · by_cases hq : p.1 == k'
        · simp [mapSet, hp, mapGetD, List.find?, hq]
        · simpa [mapSet, hp, mapGetD, List.find?, hq] using ih

/-! ## The accumulator computes exactly the gated contributions (towards C1) -/

lemma foldl_accumStep_total (l : List (String × ℚ)) (st : AccumState) :
    (l.foldl accumStep st).2 = st.2 + (l.map fun p => p.2).sum := by
  induction l generalizing st with
  | nil => simp
  | cons p l ih =>
      rw [List.foldl_cons, ih]
      simp [accumStep]
      ring

lemma foldl_accumStep_getD (l : List (String × ℚ)) (st : AccumState) (k : String) :
    mapGetD (l.foldl accumStep st).1 k 0 =
      mapGetD st.1 k 0 + ((l.filter fun p => p.1 == k).map fun p => p.2).sum := by
  induction l generalizing st with
  | nil => simp
  | cons p l ih =>
      rw [List.foldl_cons, ih]
      by_cases h : p.1 == k
      · have h1 : p.1 = k := by simpa [beq_iff_eq] using h
        simp only [accumStep, h1, mapGetD_mapSet_self]
        simp [List.filter_cons, h1]
        ring
      · have h1 : k ≠ p.1 := by
          intro he
          simp [beq_iff_eq, he.symm] at h
        simp only [accumStep, mapGetD_mapSet_ne _ _ _ _ _ h1]
        simp [List.filter_cons, h]

open Classical in
lemma foldl_stepFlatVote_eq (cell : GridCell) (radiusKm : ℚ) (wvotes : List WeightedVote)
    (votes : List Vote) (st : AccumState) :
    votes.foldl (stepFlatVote cell (radiusDegLatOf radiusKm wvotes)
        (radiusDegLonOf radiusKm wvotes) radiusKm) st =
      (votes.filterMap fun v =>
        if flatGate cell radiusKm wvotes v then some (v.beerId, (1 : ℚ)) else none).foldl
        accumStep st := by
  induction votes generalizing st with
  | nil => rfl
  | cons v votes ih =>
      rw [List.foldl_cons, List.filterMap_cons]
      by_cases hg : flatGate cell radiusKm wvotes v
      · have hstep : stepFlatVote cell (radiusDegLatOf radiusKm wvotes)
            (radiusDegLonOf radiusKm wvotes) radiusKm st v = accumStep st (v.beerId, 1) := by
          unfold stepFlatVote accumStep
          rw [if_neg hg.1, if_pos hg.2]
        rw [if_pos hg, hstep, List.foldl_cons, ih]
      · rw [if_neg hg, stepFlatVote_of_not_gate _ _ _ _ _ hg, ih]

open Classical in
lemma foldl_stepWeightedVote_eq (cell : GridCell) (radiusKm : ℚ)
    (wvotes l : List WeightedVote) (st : AccumState) :
    l.foldl (stepWeightedVote cell (radiusDegLatOf radiusKm wvotes)
        (radiusDegLonOf radiusKm wvotes)) st =
      (l.filterMap fun w =>
        if weightedGate cell radiusKm wvotes w then some (w.beerId, w.weight) else none).foldl
        accumStep st := by
  induction l generalizing st with
  | nil => rfl
  | cons w l ih =>
      rw [List.foldl_cons, List.filterMap_cons]
      by_cases hg : weightedGate cell radiusKm wvotes w
      · have hstep : stepWeightedVote cell (radiusDegLatOf radiusKm wvotes)
            (radiusDegLonOf radiusKm wvotes) st w = accumStep st (w.beerId, w.weight) := by
          unfold stepWeightedVote accumStep
          rw [if_neg hg.1, if_pos hg.2]
        rw [if_pos hg, hstep, List.foldl_cons, ih]
      · rw [if_neg hg, stepWeightedVote_of_not_gate _ _ _ _ _ hg, ih]

/-- The per-cell accumulator is the fold of exactly the gated contributions. -/
lemma cellWeights_eq_gated (cell : GridCell) (votes : List Vote) (radiusKm : ℚ)
    (wvotes : List WeightedVote) :
    cellWeights cell votes radiusKm wvotes =
      (gatedContribs cell votes radiusKm wvotes).foldl accumStep ([], 0) := by
  simp only [cellWeights, gatedContribs]
  rw [List.foldl_append, foldl_stepFlatVote_eq]
  by_cases he : wvotes.isEmpty
  · have hnil : wvotes = [] := List.isEmpty_iff.mp he
    subst hnil
    simp
  · simp only [he, if_false, Bool.false_eq_true]
    rw [foldl_stepWeightedVote_eq]

/-- C1 (amended): a vote's weight is added to a cell's per-label accumulator
iff the vote passes the bounding-box prefilter AND its haversine distance to
the cell center is at most the applicable radius (the vote's own `radiusKm`
for weighted votes, the shared one for flat votes).  The prefilter is NOT
semantically transparent: because its degrees-per-km constant (111.32) is
slightly larger than the haversine's effective degree length
(6371·π/180 ≈ 111.195 km), it can reject votes whose distance is within
their own radius (see the counterexample), so it is part of the gate. -/
theorem claim_C1_amended_accumulates_iff_prefilter_and_radius (cell : GridCell)
    (votes : List Vote) (radiusKm : ℚ) (wvotes : List WeightedVote) (label : String) :
    mapGetD (cellWeights cell votes radiusKm wvotes).1 label 0 =
        (((gatedContribs cell votes radiusKm wvotes).filter fun p => p.1 == label).map
          fun p => p.2).sum ∧
      (cellWeights cell votes radiusKm wvotes).2 =
        ((gatedContribs cell votes radiusKm wvotes).map fun p => p.2).sum := by
  rw [cellWeights_eq_gated]
  constructor
  · rw [foldl_accumStep_getD]
    simp [mapGetD]
  · rw [foldl_accumStep_total]
    simp

/-! ## Exact haversine evaluation along a meridian -/

lemma haversine_same_lon (lat1 lat2 lon : ℝ) (h0 : 0 ≤ lat2 - lat1)
    (h1 : lat2 - lat1 < 180) :
    haversineDistanceKm lat1 lon lat2 lon =
      EARTH_RADIUS_KM * ((lat2 - lat1) * DEG_TO_RAD) := by
  have hπ : (0 : ℝ) < Real.pi := Real.pi_pos
  simp only [haversineDistanceKm, DEG_TO_RAD]
  have hz : (lon - lon) * (Real.pi / 180) / 2 = 0 := by
    rw [sub_self]
    ring
  rw [hz, Real.sin_zero]
  rw [show ((0 : ℝ) ^ 2 = 0) from by norm_num, mul_zero, add_zero]
  set t := (lat2 - lat1) * (Real.pi / 180) / 2 with ht
  have ht0 : 0 ≤ t := by positivity
  have htlt : t < Real.pi / 2 := by
    rw [ht]
    nlinarith
  have hsin : (0 : ℝ) ≤ Real.sin t :=
    Real.sin_nonneg_of_nonneg_of_le_pi ht0 (by linarith)
  have hcos : (0 : ℝ) < Real.cos t :=
    Real.cos_pos_of_mem_Ioo ⟨by linarith, htlt⟩
  have hs1 : Real.sqrt (Real.sin t ^ 2) = Real.sin t := Real.sqrt_sq hsin
  have hs2 : Real.sqrt (1 - Real.sin t ^ 2) = Real.cos t := by
    rw [← Real.cos_sq']
    exact Real.sqrt_sq hcos.le
  rw [hs1, hs2]
  unfold atan2
  rw [if_pos hcos, ← Real.tan_eq_sin_div_cos, Real.arctan_tan (by linarith) htlt]
  rw [ht]
  ring

/-- C1 counterexample: the bounding-box prefilter rejects a weighted vote
whose haversine distance to the cell center is within the vote's own radius,
so its weight is never added: the cell's accumulator stays empty even though
`distance ≤ radiusKm` holds.  This falsifies the claim that the prefilter
never rejects a vote within its own radius (and that inclusion is gated by
the distance test alone). -/
theorem claim_C1_counterexample :
    haversineDistanceKm cexCell.centerLat cexCell.centerLon cexVote.lat cexVote.lon ≤
        (cexVote.radiusKm : ℝ) ∧
      cellWeights cexCell [] 1 [cexVote] = ([], 0) := by
  constructor
  · have hc : cexCell.centerLat = 0 ∧ cexCell.centerLon = 0 := ⟨rfl, rfl⟩
    have hv : cexVote.lat = 1.0001 ∧ cexVote.lon = 0 := ⟨rfl, rfl⟩
    rw [hc.1, hc.2, hv.1, hv.2]
    rw [haversine_same_lon 0 1.0001 0 (by norm_num) (by norm_num)]
    unfold EARTH_RADIUS_KM DEG_TO_RAD
    have hπ : Real.pi < 3.141593 := Real.pi_lt_d6
    have h : (6371 : ℝ) * ((1.0001 - 0) * (Real.pi / 180)) ≤
        6371 * ((1.0001 - 0) * (3.141593 / 180)) := by
      nlinarith [hπ]
    calc (6371 : ℝ) * ((1.0001 - 0) * (Real.pi / 180)) ≤
        6371 * ((1.0001 - 0) * (3.141593 / 180)) := h
      _ ≤ (cexVote.radiusKm : ℝ) := by
          show (6371 : ℝ) * ((1.0001 - 0) * (3.141593 / 180)) ≤ ((111.3 : ℚ) : ℝ)
          push_cast
          norm_num
  · have hmax : maxRadiusOf 1 [cexVote] = 111.3 := by
      norm_num [maxRadiusOf, cexVote]
    have hreject : |cexVote.lat - cexCell.centerLat| >
        ((radiusDegLatOf 1 [cexVote] : ℚ) : ℝ) ∨
        |cexVote.lon - cexCell.centerLon| > radiusDegLonOf 1 [cexVote] := by
      left
      show |(1.0001 : ℝ) - 0| > ((radiusDegLatOf 1 [cexVote] : ℚ) : ℝ)
      rw [radiusDegLatOf, hmax]
      rw [sub_zero, abs_of_pos (by norm_num)]
      push_cast
      norm_num
    simp only [cellWeights, List.foldl_nil, List.isEmpty_cons, if_false, Bool.false_eq_true,
      List.foldl_cons]
    rw [stepWeightedVote, if_pos hreject]

/-! ## Weight-map and winner-scan invariants (towards C3) -/

lemma mem_mapSet {α : Type} (m : List (String × α)) (k : String) (v : α) :
    ∀ q ∈ mapSet m k v, q = (k, v) ∨ q ∈ m := by
  induction m with
  | nil =>
      intro q hq
      simp [mapSet] at hq
      exact Or.inl hq
  | cons p m ih =>
      intro q hq
      by_cases h : p.1 == k
      · simp only [mapSet, h, if_pos] at hq
        rcases List.mem_cons.mp hq with h1 | h1
        · exact Or.inl h1
        · exact Or.inr (List.mem_cons_of_mem p h1)
      · simp only [mapSet, h, Bool.false_eq_true, if_false] at hq
        rcases List.mem_cons.mp hq with h1 | h1
        · exact Or.inr (h1 ▸ List.mem_cons_self p m)
        · rcases ih q h1 with h2 | h2
          · exact Or.inl h2
          · exact Or.inr (List.mem_cons_of_mem p h2)

lemma mapGetD_nonneg (m : List (String × ℚ)) (k : String)
    (h : ∀ q ∈ m, 0 < q.2) : 0 ≤ mapGetD m k 0 := by
  unfold mapGetD
  cases hf : m.find? (fun p => p.1 == k) with
  | none => simp
  | some p =>
      simp only
      exact (h p (List.mem_of_find?_eq_some hf)).le

lemma mapSet_values_sum (m : List (String × ℚ)) (k : String) (w : ℚ) :
    ((mapSet m k (mapGetD m k 0 + w)).map fun q => q.2).sum =
      ((m.map fun q => q.2).sum) + w := by
  induction m with
  | nil => simp [mapSet, mapGetD]
  | cons p m ih =>
      by_cases h : p.1 == k
      · have hget : mapGetD (p :: m) k 0 = p.2 := by
          simp [mapGetD, List.find?, h]
        simp only [mapSet, h, if_pos, List.map_cons, List.sum_cons, hget]
        ring
      · have hget : mapGetD (p :: m) k 0 = mapGetD m k 0 := by
          simp [mapGetD, List.find?, h]
        simp only [mapSet, h, Bool.false_eq_true, if_false, List.map_cons, List.sum_cons, hget, ih]
        ring

/-- Along the accumulation fold: all stored per-label weights stay positive
(when all contributions are positive) and the running total equals the sum of
the stored weights. -/
lemma foldl_accumStep_invariant (l : List (String × ℚ)) (hl : ∀ p ∈ l, 0 < p.2) :
    ∀ st : AccumState, (∀ q ∈ st.1, 0 < q.2) →
      st.2 = ((st.1.map fun q => q.2).sum) →
      (∀ q ∈ (l.foldl accumStep st).1, 0 < q.2) ∧
        (l.foldl accumStep st).2 = (((l.foldl accumStep st).1.map fun q => q.2).sum) := by
  induction l with
  | nil => intro st h1 h2; exact ⟨h1, h2⟩
  | cons p l ih =>
      intro st h1 h2
      have hp : 0 < p.2 := hl p (List.mem_cons_self p l)
      have hl' : ∀ q ∈ l, 0 < q.2 := fun q hq => hl q (List.mem_cons_of_mem p hq)
      rw [List.foldl_cons]
      refine ih hl' (accumStep st p) ?_ ?_
      · intro q hq
        rcases mem_mapSet _ _ _ q hq with h3 | h3
        · rw [h3]
          have := mapGetD_nonneg st.1 p.1 h1
          simpa using by positivity
        · exact h1 q h3
      · simp only [accumStep]
        rw [mapSet_values_sum, ← h2]

lemma wstep_pres (s : WScan) (p : String × ℚ) (hp : 0 < p.2)
    (h1 : 0 ≤ s.ruW) (h2 : s.ruW ≤ s.winnerW) :
    0 ≤ (wstep s p).ruW ∧ (wstep s p).ruW ≤ (wstep s p).winnerW ∧
      (0 < s.ruW → 0 < (wstep s p).ruW) := by
  unfold wstep
  split_ifs with hA hB
  · exact ⟨h1.trans h2, hA.le, fun hr => lt_of_lt_of_le hr h2⟩
  · exact ⟨hp.le, le_of_not_lt hA, fun _ => hp⟩
  · exact ⟨h1, h2, id⟩

lemma foldl_wstep_pres (L : List (String × ℚ)) (hL : ∀ p ∈ L, 0 < p.2) :
    ∀ s : WScan, 0 ≤ s.ruW → s.ruW ≤ s.winnerW →
      0 ≤ (L.foldl wstep s).ruW ∧ (L.foldl wstep s).ruW ≤ (L.foldl wstep s).winnerW ∧
        (0 < s.ruW → 0 < (L.foldl wstep s).ruW) := by
  induction L with
  | nil => intro s h1 h2; exact ⟨h1, h2, id⟩
  | cons p L ih =>
      intro s h1 h2
      have hp : 0 < p.2 := hL p (List.mem_cons_self p L)
      have hL' : ∀ q ∈ L, 0 < q.2 := fun q hq => hL q (List.mem_cons_of_mem p hq)
      obtain ⟨k1, k2, k3⟩ := wstep_pres s p hp h1 h2
      obtain ⟨m1, m2, m3⟩ := ih hL' (wstep s p) k1 k2
      exact ⟨m1, m2, fun hr => m3 (k3 hr)⟩

lemma foldl_wstep_winnerW_mem (L : List (String × ℚ)) :
    ∀ s : WScan, (L.foldl wstep s).winnerW = s.winnerW ∨
      ∃ p ∈ L, (L.foldl wstep s).winnerW = p.2 := by
  induction L with
  | nil => intro s; exact Or.inl rfl
  | cons p L ih =>
      intro s
      rw [List.foldl_cons]
      rcases ih (wstep s p) with h | ⟨q, hq, hqe⟩
      · have : (wstep s p).winnerW = p.2 ∨ (wstep s p).winnerW = s.winnerW := by
          unfold wstep
          split_ifs <;> simp
        rcases this with h2 | h2
        · exact Or.inr ⟨p, List.mem_cons_self p L, h ▸ h2 ▸ rfl⟩
        · exact Or.inl (h ▸ h2 ▸ rfl)
      · exact Or.inr ⟨q, List.mem_cons_of_mem p hq, hqe⟩

lemma wscan_singleton (p : String × ℚ) (hp : 0 < p.2) :
    wscan [p] = ⟨some p.1, p.2, none, 0⟩ := by
  unfold wscan wstep
  simp [hp]

lemma wscan_ruW_pos (p q : String × ℚ) (rest : List (String × ℚ))
    (hL : ∀ x ∈ p :: q :: rest, 0 < x.2) :
    0 < (wscan (p :: q :: rest)).ruW := by
  have hp : 0 < p.2 := hL p (by simp)
  have hq : 0 < q.2 := hL q (by simp)
  have hrest : ∀ x ∈ rest, 0 < x.2 := fun x hx => hL x (by simp [hx])
  unfold wscan
  rw [List.foldl_cons, List.foldl_cons]
  have h1 : wstep ⟨none, 0, none, 0⟩ p = ⟨some p.1, p.2, none, 0⟩ := by
    have hcond : ((⟨none, 0, none, 0⟩ : WScan)).winnerW < p.2 := hp
    unfold wstep
    rw [if_pos hcond]
  rw [h1]
  have h2 : 0 < (wstep ⟨some p.1, p.2, none, 0⟩ q).ruW ∧
      (wstep ⟨some p.1, p.2, none, 0⟩ q).ruW ≤ (wstep ⟨some p.1, p.2, none, 0⟩ q).winnerW := by
    have hcond : (⟨some p.1, p.2, none, 0⟩ : WScan).ruW < q.2 := hq
    unfold wstep
    by_cases hA : (⟨some p.1, p.2, none, 0⟩ : WScan).winnerW < q.2
    · rw [if_pos hA]
      exact ⟨hp, hA.le⟩
    · rw [if_neg hA, if_pos hcond]
      exact ⟨hq, le_of_not_lt hA⟩
  obtain ⟨m1, m2, m3⟩ := foldl_wstep_pres rest hrest _ h2.1.le h2.2
  exact m3 h2.1

/-- The nonzero branch of `buildCellResult`, spelled out. -/
lemma buildCellResult_nonzero (row col : ℕ) (acc : AccumState) (hz : ¬acc.2 = 0) :
    buildCellResult row col acc =
      { row := row, col := col, winnerBeerId := (wscan acc.1).winnerId,
        winnerCount := (wscan acc.1).winnerW, totalCount := acc.2, voteCounts := acc.1,
        runnerUpBeerId := (wscan acc.1).ruId, runnerUpCount := (wscan acc.1).ruW,
        margin := if acc.2 ≥ 0.001 then ((wscan acc.1).winnerW - (wscan acc.1).ruW) / acc.2
          else 1 } := by
  unfold buildCellResult
  rw [if_neg hz]

/-- C3: for every cell result produced by `computeDominance` from votes with
strictly positive weights, the margin lies in `[0, 1]`, and the margin equals
exactly 1 iff either the total weight is nonzero and strictly below 0.001, or
the cell has no runner-up label (exactly one label received weight). -/
theorem claim_C3_margin_bounds (cells : List GridCell) (votes : List Vote)
    (radiusKm : ℚ) (wvotes : List WeightedVote) (i : ℕ) (hi : i < cells.length)
    (hwpos : ∀ w ∈ wvotes, 0 < w.weight) (res : CellResult)
    (hres : res = (computeDominance cells votes radiusKm wvotes).getD i default) :
    0 ≤ res.margin ∧ res.margin ≤ 1 ∧
      (res.margin = 1 ↔ (res.totalCount ≠ 0 ∧ res.totalCount < 0.001) ∨
        (res.runnerUpBeerId = none ∧ res.voteCounts.length = 1)) := by
  have hc : cells[i]? = some cells[i] := List.getElem?_eq_getElem hi
  rw [List.getD_eq_getElem?_getD, computeDominance_getElem?, hc] at hres
  by_cases hb : (votes.isEmpty && wvotes.isEmpty) = true
  · rw [hres]
    simp [hb, zeroResult]
  · simp only [hb, Option.map_some', Bool.false_eq_true, if_false, Option.getD_some] at hres
    -- the accumulated state and its invariants
    set acc := cellWeights cells[i] votes radiusKm wvotes with hacc
    have hgate_pos : ∀ p ∈ gatedContribs cells[i] votes radiusKm wvotes, 0 < p.2 := by
      intro p hp
      unfold gatedContribs at hp
      rcases List.mem_append.mp hp with h | h
      · rcases List.mem_filterMap.mp h with ⟨v, _, hv⟩
        split_ifs at hv
        · cases hv; norm_num
      · rcases List.mem_filterMap.mp h with ⟨w, hw, hv⟩
        split_ifs at hv
        · cases hv; exact hwpos w hw
    have hinv := foldl_accumStep_invariant _ hgate_pos ([], 0) (by simp) (by simp)
    rw [← cellWeights_eq_gated, ← hacc] at hinv
    obtain ⟨hpos, hsum⟩ := hinv
    by_cases hz : acc.2 = 0
    · rw [hres]
      unfold buildCellResult
      rw [if_pos hz]
      simp [zeroResult]
    · rw [hres, buildCellResult_nonzero _ _ _ hz]
      dsimp only
      have hru0 : 0 ≤ (wscan acc.1).ruW := by
        unfold wscan
        exact (foldl_wstep_pres acc.1 hpos
          { winnerId := none, winnerW := 0, ruId := none, ruW := 0 } le_rfl le_rfl).1
      have hrule : (wscan acc.1).ruW ≤ (wscan acc.1).winnerW := by
        unfold wscan
        exact (foldl_wstep_pres acc.1 hpos
          { winnerId := none, winnerW := 0, ruId := none, ruW := 0 } le_rfl le_rfl).2.1
      have hvals_nonneg : ∀ x ∈ acc.1.map fun q => q.2, (0 : ℚ) ≤ x := by
        intro x hx
        rcases List.mem_map.mp hx with ⟨q, hq, hqe⟩
        exact hqe ▸ (hpos q hq).le
      have hwle : (wscan acc.1).winnerW ≤ acc.2 := by
        unfold wscan
        rcases foldl_wstep_winnerW_mem acc.1
            { winnerId := none, winnerW := 0, ruId := none, ruW := 0 } with h | ⟨p, hp, hpe⟩
        · rw [h, hsum]
          exact List.sum_nonneg hvals_nonneg
        · rw [hpe, hsum]
          exact List.single_le_sum hvals_nonneg _ (List.mem_map_of_mem _ hp)
      by_cases hm : acc.2 ≥ 0.001
      · have ht0 : (0 : ℚ) < acc.2 := lt_of_lt_of_le (by norm_num) hm
        rw [if_pos hm]
        refine ⟨div_nonneg (by linarith) ht0.le, ?_, ?_⟩
        · rw [div_le_one ht0]
          linarith
        · rw [div_eq_one_iff_eq ht0.ne']
          match hl : acc.1 with
          | [] =>
              rw [hl] at hsum
              simp at hsum
              exact absurd hsum hz
          | [p] =>
              have hp : 0 < p.2 := hpos p (by rw [hl]; simp)
              have hw : wscan [p] = ⟨some p.1, p.2, none, 0⟩ := wscan_singleton p hp
              have htot : acc.2 = p.2 := by
                rw [hsum, hl]
                simp
              rw [hw]
              constructor
              · intro _
                exact Or.inr ⟨rfl, rfl⟩
              · intro _
                rw [htot]
                simp
          | p :: q :: rest =>
              rw [hl] at hwle hrule
              have hru_pos : 0 < (wscan (p :: q :: rest)).ruW :=
                wscan_ruW_pos p q rest (by rw [← hl]; exact hpos)
              constructor
              · intro he
                exfalso
                have hlt : (wscan (p :: q :: rest)).winnerW -
                    (wscan (p :: q :: rest)).ruW < acc.2 := by linarith
                rw [he] at hlt
                exact lt_irrefl _ hlt
              · rintro (⟨_, hlt⟩ | ⟨_, hlen⟩)
                · exact absurd hlt (not_lt.mpr hm)
                · simp at hlen
      · rw [if_neg hm]
        refine ⟨by norm_num, le_rfl, ?_⟩
        constructor
        · intro _
          exact Or.inl ⟨hz, lt_of_not_le hm⟩
        · intro _
          rfl

/-- Witness for C3 at a concrete input: one cell, no votes, vacuous
positivity. -/
theorem claim_C3_witness :
    0 ≤ ((computeDominance [⟨0, 0, 0, 0⟩] [] 1 []).getD 0 default).margin ∧
      ((computeDominance [⟨0, 0, 0, 0⟩] [] 1 []).getD 0 default).margin ≤ 1 ∧
      (((computeDominance [⟨0, 0, 0, 0⟩] [] 1 []).getD 0 default).margin = 1 ↔
        (((computeDominance [⟨0, 0, 0, 0⟩] [] 1 []).getD 0 default).totalCount ≠ 0 ∧
            ((computeDominance [⟨0, 0, 0, 0⟩] [] 1 []).getD 0 default).totalCount < 0.001) ∨
          (((computeDominance [⟨0, 0, 0, 0⟩] [] 1 []).getD 0 default).runnerUpBeerId = none ∧
            ((computeDominance [⟨0, 0, 0, 0⟩] [] 1 []).getD 0 default).voteCounts.length = 1)) :=
  claim_C3_margin_bounds [⟨0, 0, 0, 0⟩] [] 1 [] 0 (by simp) (by simp) _ rfl

/-! ## The smoothing fold computes the first-encountered majority (towards C5) -/

lemma find?_congr {α : Type} (l : List α) (p q : α → Bool)
    (h : ∀ x ∈ l, p x = q x) : l.find? p = l.find? q := by
  induction l with
  | nil => rfl
  | cons a l ih =>
      rw [List.find?_cons, List.find?_cons, h a (List.mem_cons_self a l)]
      cases hq : q a
      · exact ih fun x hx => h x (List.mem_cons_of_mem a hx)
      · rfl

lemma firstOccur_mem_aux (L : List String) (x : String) :
    ∀ acc, x ∈ L.foldl (fun acc y => if y ∈ acc then acc else acc ++ [y]) acc ↔
      (x ∈ acc ∨ x ∈ L) := by
  induction L with
  | nil => simp
  | cons a L ih =>
      intro acc
      rw [List.foldl_cons]
      by_cases h : a ∈ acc
      · rw [if_pos h, ih]
        simp only [List.mem_cons]
        constructor
        · rintro (h1 | h1)
          · exact Or.inl h1
          · exact Or.inr (Or.inr h1)
        · rintro (h1 | h1 | h1)
          · exact Or.inl h1
          · exact Or.inl (h1 ▸ h)
          · exact Or.inr h1
      · rw [if_neg h, ih]
        simp only [List.mem_append, List.mem_cons, List.mem_singleton]
        tauto

lemma mem_firstOccur (L : List String) (x : String) : x ∈ firstOccur L ↔ x ∈ L := by
  unfold firstOccur
  rw [firstOccur_mem_aux]
  simp

lemma firstOccur_nodup_aux (L : List String) :
    ∀ acc, acc.Nodup →
      (L.foldl (fun acc y => if y ∈ acc then acc else acc ++ [y]) acc).Nodup := by
  induction L with
  | nil => intro acc h; exact h
  | cons a L ih =>
      intro acc h
      rw [List.foldl_cons]
      by_cases ha : a ∈ acc
      · rw [if_pos ha]
        exact ih acc h
      · rw [if_neg ha]
        refine ih _ ?_
        simp [List.nodup_append, h, ha]

lemma firstOccur_nodup (L : List String) : (firstOccur L).Nodup :=
  firstOccur_nodup_aux L [] List.nodup_nil

lemma firstOccur_append_singleton (L : List String) (x : String) :
    firstOccur (L ++ [x]) =
      if x ∈ firstOccur L then firstOccur L else firstOccur L ++ [x] := by
  unfold firstOccur
  rw [List.foldl_append]
  rfl

lemma countFold_append_singleton (L : List String) (x : String) :
    countFold (L ++ [x]) = mapSet (countFold L) x (mapGetD (countFold L) x 0 + 1) := by
  unfold countFold
  rw [List.foldl_append]
  rfl

lemma mapGetD_map_counts (ks : List String) (c : String → ℕ) (x : String) :
    mapGetD (ks.map fun k => (k, c k)) x 0 = if x ∈ ks then c x else 0 := by
  induction ks with
  | nil => simp [mapGetD]
  | cons k ks ih =>
      by_cases h : (k == x) = true
      · have hkx : k = x := by simpa [beq_iff_eq] using h
        subst hkx
        simp [mapGetD, List.find?, h]
      · have hkx : ¬x = k := by
          intro he
          simp [beq_iff_eq, he] at h
        rw [List.map_cons]
        unfold mapGetD at ih ⊢
        rw [List.find?_cons]
        simp only [h, Bool.false_eq_true, if_false] at *
        rw [ih]
        simp [List.mem_cons, hkx]

lemma mapSet_map_mem (ks : List String) (c : String → ℕ) (x : String) (v : ℕ)
    (hnd : ks.Nodup) (hx : x ∈ ks) :
    mapSet (ks.map fun k => (k, c k)) x v =
      ks.map fun k => (k, if k = x then v else c k) := by
  induction ks with
  | nil => cases hx
  | cons k ks ih =>
      rw [List.map_cons, List.map_cons]
      by_cases h : k = x
      · subst h
        have hbeq : (k == k) = true := by simp
        simp only [mapSet, hbeq, if_pos]
        have hnotmem : k ∉ ks := (List.nodup_cons.mp hnd).1
        have htail : List.map (fun y => (y, c y)) ks =
            List.map (fun y => (y, if y = k then v else c y)) ks := by
          apply List.map_congr_left
          intro y hy
          have hyk : ¬y = k := fun he => hnotmem (he ▸ hy)
          simp [hyk]
        rw [← htail]
      · have hbeq : (k == x) = false := by simp [h]
        have hxks : x ∈ ks := by
          rcases List.mem_cons.mp hx with h1 | h1
          · exact absurd h1.symm h
          · exact h1
        simp only [mapSet, hbeq, Bool.false_eq_true, if_false]
        rw [ih (List.nodup_cons.mp hnd).2 hxks]
        congr 1
        simp [h]

lemma mapSet_map_not_mem (ks : List String) (c : String → ℕ) (x : String) (v : ℕ)
    (hx : x ∉ ks) :
    mapSet (ks.map fun k => (k, c k)) x v = (ks.map fun k => (k, c k)) ++ [(x, v)] := by
  induction ks with
  | nil => rfl
  | cons k ks ih =>
      have hkx : ¬k = x := fun he => hx (he ▸ List.mem_cons_self k ks)
      have hbeq : (k == x) = false := by simp [hkx]
      have hxks : x ∉ ks := fun hc => hx (List.mem_cons_of_mem k hc)
      rw [List.map_cons]
      simp only [mapSet, hbeq, Bool.false_eq_true, if_false]
      rw [ih hxks]
      rfl

/-- The count map built by the neighbor fold is exactly: the labels in order
of first occurrence, each paired with its multiset count. -/
lemma countFold_eq_map (L : List String) :
    countFold L = (firstOccur L).map fun k => (k, L.count k) := by
  induction L using List.reverseRecOn with
  | nil => rfl
  | append_singleton L x ih =>
      rw [countFold_append_singleton, ih, firstOccur_append_singleton]
      rw [mapGetD_map_counts]
      by_cases h : x ∈ firstOccur L
      · rw [if_pos h, if_pos h]
        have hxL : x ∈ L := (mem_firstOccur L x).mp h
        rw [mapSet_map_mem _ _ _ _ (firstOccur_nodup L) h]
        apply List.map_congr_left
        intro k hk
        by_cases hkx : k = x
        · subst hkx
          simp [List.count_append]
        · have : (x == k) = false := by
            simp [beq_iff_eq]
            exact fun he => hkx he.symm
          simp [hkx, List.count_append, List.count_singleton, this]
      · rw [if_neg h, if_neg h]
        have hxL : x ∉ L := fun hc => h ((mem_firstOccur L x).mpr hc)
        have hcount : L.count x = 0 := List.count_eq_zero.mpr hxL
        rw [mapSet_map_not_mem _ _ _ _ h, List.map_append]
        congr 1
        · apply List.map_congr_left
          intro k hk
          have hkx : ¬(x == k) = true := by
            simp [beq_iff_eq]
            intro he
            exact h (he ▸ hk)
          simp at hkx
          simp [List.count_append, List.count_singleton, hkx]
        · simp [List.count_append, hcount]

lemma exists_max_entry (m : List (String × ℕ)) (hm : m ≠ []) :
    ∃ x ∈ m, ∀ y ∈ m, y.2 ≤ x.2 := by
  induction m with
  | nil => exact absurd rfl hm
  | cons q m ih =>
      cases m with
      | nil =>
          refine ⟨q, List.mem_cons_self q [], ?_⟩
          intro y hy
          rcases List.mem_singleton.mp hy with h
          exact h ▸ le_rfl
      | cons r m =>
          obtain ⟨x, hx, hmax⟩ := ih (by simp)
          by_cases h : x.2 ≤ q.2
          · refine ⟨q, List.mem_cons_self _ _, ?_⟩
            intro y hy
            rcases List.mem_cons.mp hy with h1 | h1
            · exact h1 ▸ le_rfl
            · exact (hmax y h1).trans h
          · refine ⟨x, List.mem_cons_of_mem q hx, ?_⟩
            intro y hy
            rcases List.mem_cons.mp hy with h1 | h1
            · exact h1 ▸ (le_of_not_le h)
            · exact hmax y h1

lemma all_le_iff (l : List (String × ℕ)) (b : ℕ) :
    (l.all fun r => decide (r.2 ≤ b)) = true ↔ ∀ r ∈ l, r.2 ≤ b := by
  rw [List.all_eq_true]
  constructor
  · intro h r hr
    exact of_decide_eq_true (h r hr)
  · intro h r hr
    exact decide_eq_true (h r hr)

/-- The strict-improvement fold over a count map returns the first entry that
beats the initial value and dominates the whole map (or the initial pair). -/
lemma foldl_best_eq (m : List (String × ℕ)) (p₀ : String × ℕ) :
    m.foldl (fun p q => if p.2 < q.2 then q else p) p₀ =
      (m.find? fun q => decide (p₀.2 < q.2) && (m.all fun r => decide (r.2 ≤ q.2))).getD p₀ := by
  induction m generalizing p₀ with
  | nil => rfl
  | cons q m ih =>
      rw [List.foldl_cons, List.find?_cons]
      by_cases hq : p₀.2 < q.2
      · rw [if_pos hq, ih]
        by_cases hall : ∀ r ∈ m, r.2 ≤ q.2
        · have hhead : (decide (p₀.2 < q.2) &&
              ((q :: m).all fun r => decide (r.2 ≤ q.2))) = true := by
            rw [List.all_cons, Bool.and_eq_true, Bool.and_eq_true]
            exact ⟨decide_eq_true hq, decide_eq_true le_rfl, (all_le_iff m q.2).mpr hall⟩
          rw [hhead]
          have hnone : (m.find? fun r => decide (q.2 < r.2) &&
              (m.all fun s => decide (s.2 ≤ r.2))) = none := by
            apply List.find?_eq_none.mpr
            intro r hr hcontra
            rw [Bool.and_eq_true] at hcontra
            exact absurd (of_decide_eq_true hcontra.1) (not_lt.mpr (hall r hr))
          rw [hnone]
          rfl
        · push_neg at hall
          obtain ⟨r, hr, hrgt⟩ := hall
          have hhead : (decide (p₀.2 < q.2) &&
              ((q :: m).all fun r => decide (r.2 ≤ q.2))) = false := by
            apply Bool.eq_false_iff.mpr
            intro hcontra
            rw [List.all_cons, Bool.and_eq_true, Bool.and_eq_true] at hcontra
            exact absurd ((all_le_iff m q.2).mp hcontra.2.2 r hr) (not_le.mpr hrgt)
          rw [hhead]
          have hcong : ∀ x ∈ m,
              (decide (q.2 < x.2) && (m.all fun s => decide (s.2 ≤ x.2))) =
              (decide (p₀.2 < x.2) && ((q :: m).all fun s => decide (s.2 ≤ x.2))) := by
            intro x _
            by_cases hdom : ∀ s ∈ m, s.2 ≤ x.2
            · have hqx : q.2 < x.2 := lt_of_lt_of_le hrgt (hdom r hr)
              have h1 : (m.all fun s => decide (s.2 ≤ x.2)) = true :=
                (all_le_iff _ _).mpr hdom
              have h2 : ((q :: m).all fun s => decide (s.2 ≤ x.2)) = true := by
                rw [List.all_cons, Bool.and_eq_true]
                exact ⟨decide_eq_true hqx.le, h1⟩
              rw [h1, h2, decide_eq_true hqx, decide_eq_true (hq.trans hqx)]
            · have h1 : (m.all fun s => decide (s.2 ≤ x.2)) = false := by
                apply Bool.eq_false_iff.mpr
                intro hc
                exact hdom ((all_le_iff _ _).mp hc)
              have h2 : ((q :: m).all fun s => decide (s.2 ≤ x.2)) = false := by
                apply Bool.eq_false_iff.mpr
                intro hc
                rw [List.all_cons, Bool.and_eq_true] at hc
                exact hdom ((all_le_iff _ _).mp hc.2)
              rw [h1, h2, Bool.and_false, Bool.and_false]
          rw [find?_congr _ _ _ hcong]
          have hsome : ((m.find? fun x => decide (p₀.2 < x.2) &&
              ((q :: m).all fun s => decide (s.2 ≤ x.2)))).isSome = true := by
            rw [List.find?_isSome]
            obtain ⟨x, hx, hmax⟩ := exists_max_entry m (by rintro rfl; cases hr)
            have hqx : q.2 < x.2 := lt_of_lt_of_le hrgt (hmax r hr)
            refine ⟨x, hx, ?_⟩
            rw [Bool.and_eq_true, List.all_cons, Bool.and_eq_true]
            exact ⟨decide_eq_true (hq.trans hqx),
              decide_eq_true hqx.le, (all_le_iff _ _).mpr hmax⟩
          obtain ⟨z, hz⟩ := Option.isSome_iff_exists.mp hsome
          rw [hz]
          rfl
      · rw [if_neg hq, ih]
        have hhead : (decide (p₀.2 < q.2) &&
            ((q :: m).all fun r => decide (r.2 ≤ q.2))) = false := by
          rw [decide_eq_false hq, Bool.false_and]
        rw [hhead]
        have hcong : ∀ x ∈ m,
            (decide (p₀.2 < x.2) && (m.all fun s => decide (s.2 ≤ x.2))) =
            (decide (p₀.2 < x.2) && ((q :: m).all fun s => decide (s.2 ≤ x.2))) := by
          intro x _
          by_cases hp0x : p₀.2 < x.2
          · by_cases hdom : ∀ s ∈ m, s.2 ≤ x.2
            · have hqx : q.2 ≤ x.2 := (le_of_not_lt hq).trans hp0x.le
              have h1 : (m.all fun s => decide (s.2 ≤ x.2)) = true :=
                (all_le_iff _ _).mpr hdom
              have h2 : ((q :: m).all fun s => decide (s.2 ≤ x.2)) = true := by
                rw [List.all_cons, Bool.and_eq_true]
                exact ⟨decide_eq_true hqx, h1⟩
              rw [h1, h2]
            · have h1 : (m.all fun s => decide (s.2 ≤ x.2)) = false := by
                apply Bool.eq_false_iff.mpr
                intro hc
                exact hdom ((all_le_iff _ _).mp hc)
              have h2 : ((q :: m).all fun s => decide (s.2 ≤ x.2)) = false := by
                apply Bool.eq_false_iff.mpr
                intro hc
                rw [List.all_cons, Bool.and_eq_true] at hc
                exact hdom ((all_le_iff _ _).mp hc.2)
              rw [h1, h2]
          · rw [decide_eq_false hp0x, Bool.false_and, Bool.false_and]
        rw [find?_congr _ _ _ hcong]

lemma bool_eq_of_iff {a b : Bool} (h : a = true ↔ b = true) : a = b := by
  cases a <;> cases b <;> simp_all

lemma find?_firstOccur (L : List String) (p : String → Bool) :
    (firstOccur L).find? p = L.find? p := by
  induction L using List.reverseRecOn with
  | nil => rfl
  | append_singleton L x ih =>
      rw [firstOccur_append_singleton]
      by_cases h : x ∈ firstOccur L
      · rw [if_pos h, ih, List.find?_append]
        cases hf : L.find? p
        · have hx : x ∈ L := (mem_firstOccur L x).mp h
          have hpx : ¬p x = true := List.find?_eq_none.mp hf x hx
          simp [List.find?, hpx]
        · simp [hf]
      · rw [if_neg h, List.find?_append, List.find?_append, ih]

/-- The in-code fold (`best`/`bestCount` over the insertion-ordered count
map) computes the specification's first-encountered majority label. -/
lemma bestLabel_eq_specBest (current : String) (L : List String) :
    bestLabel current (countFold L) = specBest current L := by
  unfold bestLabel specBest
  rw [foldl_best_eq, countFold_eq_map, List.find?_map]
  have hcong : ∀ k ∈ firstOccur L,
      ((fun q : String × ℕ => decide (((current, 0) : String × ℕ).2 < q.2) &&
          (((firstOccur L).map fun k => (k, L.count k)).all fun r => decide (r.2 ≤ q.2))) ∘
        fun k => (k, L.count k)) k =
      (fun x => L.all fun y => decide (L.count y ≤ L.count x)) k := by
    intro k hk
    have hkL : k ∈ L := (mem_firstOccur L k).mp hk
    have hkpos : 0 < L.count k := List.count_pos_iff.mpr hkL
    apply bool_eq_of_iff
    constructor
    · intro h
      simp only [Function.comp_apply, Bool.and_eq_true, List.all_eq_true,
        decide_eq_true_eq] at h
      simp only [List.all_eq_true, decide_eq_true_eq]
      intro y hy
      have hmem : (y, L.count y) ∈ (firstOccur L).map (fun k => (k, L.count k)) :=
        List.mem_map_of_mem _ ((mem_firstOccur L y).mpr hy)
      exact h.2 _ hmem
    · intro h
      simp only [List.all_eq_true, decide_eq_true_eq] at h
      simp only [Function.comp_apply, Bool.and_eq_true, List.all_eq_true,
        decide_eq_true_eq]
      refine ⟨hkpos, ?_⟩
      intro r hr
      obtain ⟨y, hy, rfl⟩ := List.mem_map.mp hr
      exact h y ((mem_firstOccur L y).mp hy)
  rw [find?_congr _ _ _ hcong, find?_firstOccur]
  cases hf : L.find? fun x => L.all fun y => decide (L.count y ≤ L.count x)
  · rfl
  · rfl

/-- The in-code smoothing round equals the specification round. -/
lemma smoothRound_eq_spec (grid : List (Option String)) (rows cols : ℕ) :
    smoothRound grid rows cols = specSmoothRound grid rows cols := by
  unfold smoothRound specSmoothRound
  apply List.map_congr_left
  intro idx _
  cases grid.getD idx none with
  | none => rfl
  | some current => simp only [bestLabel_eq_specBest]

lemma smoothLoop_eq_iterate (rows cols : ℕ) (n : ℕ) (g : List (Option String)) :
    smoothLoop rows cols n g = (fun g => specSmoothRound g rows cols)^[n] g := by
  induction n generalizing g with
  | zero => rfl
  | succ n ih =>
      rw [Function.iterate_succ_apply]
      show smoothLoop rows cols n (smoothRound g rows cols) = _
      rw [ih, smoothRound_eq_spec]

/-- C5: `smoothWinnerGrid` with `n` iterations writes back exactly `n`
applications of the single specification round (null cells stay null, each
non-null cell takes the most frequent label among its in-bounds 8-connected
neighbors including itself, ties to the first-encountered label in scan
order), each round reading only the previous round's fully-settled grid; and
`n = 0` leaves the cell list unchanged. -/
theorem claim_C5_smoothing_is_iterated_majority_round (cells : List CellResult)
    (rows cols n : ℕ) :
    smoothWinnerGrid cells rows cols n =
      if n = 0 then cells
      else
        cells.map fun c =>
          { c with winnerBeerId :=
              ((fun g => specSmoothRound g rows cols)^[n]
                (gridOf cells cols (rows * cols))).getD (c.row * cols + c.col) none } := by
  unfold smoothWinnerGrid
  by_cases h0 : n = 0
  · simp [h0]
  · simp only [h0, if_neg, ite_false]
    rw [smoothLoop_eq_iterate]

/-! ## Grid construction and mutation lemmas (towards C10) -/

lemma idx_lt_size (row col rows cols : ℕ) (hr : row < rows) (hc : col < cols) :
    row * cols + col < rows * cols := by
  calc row * cols + col < row * cols + cols := by omega
    _ = (row + 1) * cols := by ring
    _ ≤ rows * cols := Nat.mul_le_mul_right cols hr

lemma gridOf_aux_length (cells : List CellResult) (cols : ℕ) :
    ∀ g : List (Option String),
      (cells.foldl (fun g c => g.set (c.row * cols + c.col) c.winnerBeerId) g).length =
        g.length := by
  induction cells with
  | nil => intro g; rfl
  | cons c cells ih =>
      intro g
      rw [List.foldl_cons, ih, List.length_set]

lemma gridOf_length (cells : List CellResult) (cols size : ℕ) :
    (gridOf cells cols size).length = size := by
  unfold gridOf
  rw [gridOf_aux_length]
  exact List.length_replicate size none

lemma gridOf_aux_untouched (cells : List CellResult) (cols : ℕ) (j : ℕ)
    (hj : ∀ c ∈ cells, c.row * cols + c.col ≠ j) :
    ∀ g : List (Option String),
      (cells.foldl (fun g c => g.set (c.row * cols + c.col) c.winnerBeerId) g).getD j none =
        g.getD j none := by
  induction cells with
  | nil => intro g; rfl
  | cons c cells ih =>
      intro g
      rw [List.foldl_cons, ih fun y hy => hj y (List.mem_cons_of_mem c hy)]
      rw [List.getD_eq_getElem?_getD, List.getD_eq_getElem?_getD, List.getElem?_set,
        if_neg (hj c (List.mem_cons_self c cells))]

lemma gridOf_aux_lookup (cells : List CellResult) (cols : ℕ) (c : CellResult)
    (hc : c ∈ cells) (hnd : (cells.map fun c => c.row * cols + c.col).Nodup) :
    ∀ g : List (Option String), c.row * cols + c.col < g.length →
      (cells.foldl (fun g c => g.set (c.row * cols + c.col) c.winnerBeerId) g).getD
        (c.row * cols + c.col) none = c.winnerBeerId := by
  induction cells with
  | nil => cases hc
  | cons x cells ih =>
      intro g hlen
      rw [List.map_cons, List.nodup_cons] at hnd
      rw [List.foldl_cons]
      rcases List.mem_cons.mp hc with h1 | h1
      · subst h1
        rw [gridOf_aux_untouched cells cols _ fun y hy hkey =>
          hnd.1 (by rw [← hkey]; exact List.mem_map_of_mem (fun c => c.row * cols + c.col) hy)]
        rw [List.getD_eq_getElem?_getD, List.getElem?_set, if_pos rfl, if_pos hlen]
        rfl
      · exact ih h1 hnd.2 _ (by rw [List.length_set]; exact hlen)

lemma gridOf_getD_of_mem (cells : List CellResult) (cols size : ℕ) (c : CellResult)
    (hc : c ∈ cells) (hnd : (cells.map fun c => c.row * cols + c.col).Nodup)
    (hlen : c.row * cols + c.col < size) :
    (gridOf cells cols size).getD (c.row * cols + c.col) none = c.winnerBeerId := by
  unfold gridOf
  exact gridOf_aux_lookup cells cols c hc hnd _ (by simpa using hlen)

lemma gridOf_aux_cases (cells : List CellResult) (cols : ℕ) (j : ℕ) :
    ∀ g : List (Option String),
      (cells.foldl (fun g c => g.set (c.row * cols + c.col) c.winnerBeerId) g).getD j none =
          g.getD j none ∨
        ∃ c ∈ cells,
          (cells.foldl (fun g c => g.set (c.row * cols + c.col) c.winnerBeerId) g).getD
            j none = c.winnerBeerId := by
  induction cells with
  | nil => intro g; exact Or.inl rfl
  | cons c cells ih =>
      intro g
      rw [List.foldl_cons]
      rcases ih (g.set (c.row * cols + c.col) c.winnerBeerId) with h | ⟨x, hx, he⟩
      · rw [h, List.getD_eq_getElem?_getD, List.getElem?_set]
        by_cases hk : c.row * cols + c.col = j
        · rw [if_pos hk]
          by_cases hlen : c.row * cols + c.col < g.length
          · rw [if_pos hlen]
            exact Or.inr ⟨c, List.mem_cons_self c cells, rfl⟩
          · rw [if_neg hlen]
            left
            rw [List.getD_eq_getElem?_getD, List.getElem?_eq_none (by omega)]
        · rw [if_neg hk]
          left
          rw [List.getD_eq_getElem?_getD]
      · exact Or.inr ⟨x, List.mem_cons_of_mem c hx, he⟩

lemma gridOf_labels (cells : List CellResult) (cols size j : ℕ) (l : String)
    (h : (gridOf cells cols size).getD j none = some l) :
    ∃ c ∈ cells, c.winnerBeerId = some l := by
  unfold gridOf at h
  rcases gridOf_aux_cases cells cols j (List.replicate size none) with h1 | ⟨c, hc, he⟩
  · rw [h1] at h
    rw [List.getD_eq_getElem?_getD] at h
    rcases hr : (List.replicate size (none : Option String))[j]? with _ | v
    · rw [hr] at h
      cases h
    · have := List.getElem?_mem hr
      rw [List.eq_of_mem_replicate this] at hr
      rw [hr] at h
      cases h
  · rw [he] at h
    exact ⟨c, hc, h⟩

/-! ## Null-set and label preservation of the smoothing pass -/

lemma neighborLabels_sub (g : List (Option String)) (rows cols r c : ℕ) (l : String)
    (h : l ∈ neighborLabels g rows cols r c) : ∃ j, g.getD j none = some l := by
  unfold neighborLabels at h
  rcases List.mem_filterMap.mp h with ⟨d, _, he⟩
  by_cases hoob : ((r : ℤ) + d.1) < 0 ∨ (rows : ℤ) ≤ (r : ℤ) + d.1 ∨
      ((c : ℤ) + d.2) < 0 ∨ (cols : ℤ) ≤ (c : ℤ) + d.2
  · rw [if_pos hoob] at he
    cases he
  · rw [if_neg hoob] at he
    exact ⟨_, he⟩

lemma bestLabel_mem (current : String) (m : List (String × ℕ)) :
    bestLabel current m = current ∨ ∃ q ∈ m, bestLabel current m = q.1 := by
  unfold bestLabel
  rw [foldl_best_eq]
  cases hf : m.find? fun q => decide (((current, 0) : String × ℕ).2 < q.2) &&
      (m.all fun r => decide (r.2 ≤ q.2)) with
  | none => exact Or.inl rfl
  | some z => exact Or.inr ⟨z, List.mem_of_find?_eq_some hf, rfl⟩

lemma countFold_key_mem (L : List String) (k : String) (n : ℕ)
    (h : (k, n) ∈ countFold L) : k ∈ L := by
  rw [countFold_eq_map] at h
  rcases List.mem_map.mp h with ⟨y, hy, he⟩
  have : y = k := congrArg Prod.fst he
  exact this ▸ (mem_firstOccur L y).mp hy

lemma smoothRound_length (g : List (Option String)) (rows cols : ℕ) :
    (smoothRound g rows cols).length = rows * cols := by
  simp [smoothRound]

lemma smoothRound_getD_lt (g : List (Option String)) (rows cols idx : ℕ)
    (hidx : idx < rows * cols) :
    (smoothRound g rows cols).getD idx none =
      match g.getD idx none with
      | none => none
      | some current =>
          some (bestLabel current
            (countFold (neighborLabels g rows cols (idx / cols) (idx % cols)))) := by
  unfold smoothRound
  rw [List.getD_eq_getElem?_getD, List.getElem?_map, List.getElem?_range hidx]
  rfl

lemma smoothRound_getD_none_iff (g : List (Option String)) (rows cols idx : ℕ)
    (hidx : idx < rows * cols) :
    ((smoothRound g rows cols).getD idx none = none ↔ g.getD idx none = none) := by
  rw [smoothRound_getD_lt g rows cols idx hidx]
  cases g.getD idx none with
  | none => simp
  | some current => simp

lemma smoothRound_getD_some (g : List (Option String)) (rows cols idx : ℕ) (l : String)
    (h : (smoothRound g rows cols).getD idx none = some l) :
    ∃ j, g.getD j none = some l := by
  by_cases hidx : idx < rows * cols
  · rw [smoothRound_getD_lt g rows cols idx hidx] at h
    cases hg : g.getD idx none with
    | none => rw [hg] at h; cases h
    | some current =>
        rw [hg] at h
        have hl : bestLabel current
            (countFold (neighborLabels g rows cols (idx / cols) (idx % cols))) = l := by
          cases h
          rfl
        rcases bestLabel_mem current
            (countFold (neighborLabels g rows cols (idx / cols) (idx % cols))) with h1 | ⟨q, hq, he⟩
        · exact ⟨idx, by rw [hg, ← hl, h1]⟩
        · have hkey : q.1 ∈ neighborLabels g rows cols (idx / cols) (idx % cols) :=
            countFold_key_mem _ q.1 q.2 (by simpa using hq)
          rcases neighborLabels_sub g rows cols (idx / cols) (idx % cols) q.1 hkey with ⟨j, hj⟩
          exact ⟨j, by rw [hj, ← hl, he]⟩
  · exfalso
    have hlen : (smoothRound g rows cols).length ≤ idx := by
      rw [smoothRound_length]
      omega
    rw [List.getD_eq_getElem?_getD, List.getElem?_eq_none hlen] at h
    cases h

lemma smoothLoop_getD_none_iff (rows cols n : ℕ) (idx : ℕ) (hidx : idx < rows * cols) :
    ∀ g : List (Option String),
      ((smoothLoop rows cols n g).getD idx none = none ↔ g.getD idx none = none) := by
  induction n with
  | zero => intro g; rfl
  | succ n ih =>
      intro g
      show ((smoothLoop rows cols n (smoothRound g rows cols)).getD idx none = none ↔ _)
      rw [ih (smoothRound g rows cols), smoothRound_getD_none_iff g rows cols idx hidx]

lemma smoothLoop_getD_some (rows cols n : ℕ) :
    ∀ (g : List (Option String)) (idx : ℕ) (l : String),
      (smoothLoop rows cols n g).getD idx none = some l → ∃ j, g.getD j none = some l := by
  induction n with
  | zero => intro g idx l h; exact ⟨idx, h⟩
  | succ n ih =>
      intro g idx l h
      rcases ih (smoothRound g rows cols) idx l h with ⟨j, hj⟩
      exact smoothRound_getD_some g rows cols j l hj

/-! ## Null-set and label preservation of the island-merging pass -/

lemma setAll_cases (l : List ℕ) (v : Option String) (j : ℕ) :
    ∀ g : List (Option String),
      (setAll l v g).getD j none = g.getD j none ∨
        (j ∈ l ∧ (setAll l v g).getD j none = v) := by
  induction l with
  | nil => intro g; exact Or.inl rfl
  | cons ci l ih =>
      intro g
      have hstep : setAll (ci :: l) v g = setAll l v (g.set ci v) := by
        unfold setAll
        rw [List.foldl_cons]
      rw [hstep]
      rcases ih (g.set ci v) with h | ⟨hj, he⟩
      · rw [h, List.getD_eq_getElem?_getD, List.getElem?_set]
        by_cases hk : ci = j
        · by_cases hlen : ci < g.length
          · rw [if_pos hk, if_pos hlen]
            exact Or.inr ⟨by rw [← hk]; exact List.mem_cons_self ci l, rfl⟩
          · rw [if_pos hk, if_neg hlen]
            left
            rw [List.getD_eq_getElem?_getD, List.getElem?_eq_none (by omega)]
        · rw [if_neg hk]
          left
          rw [List.getD_eq_getElem?_getD]
      · exact Or.inr ⟨List.mem_cons_of_mem ci hj, he⟩

lemma flood_push_aux (grid : List (Option String)) (lab : String) (ns : List ℤ) :
    ∀ p : List ℕ × List Bool, (∀ s ∈ p.1, grid.getD s none = some lab) →
      ∀ s ∈ (ns.foldl (fun (p : List ℕ × List Bool) ni =>
          if ni < 0 then p
          else if p.2.getD ni.toNat false then p
          else if grid.getD ni.toNat none ≠ some lab then p
          else (ni.toNat :: p.1, p.2.set ni.toNat true)) p).1,
        grid.getD s none = some lab := by
  induction ns with
  | nil => intro p h s hs; exact h s hs
  | cons ni ns ih =>
      intro p h
      rw [List.foldl_cons]
      apply ih
      by_cases h1 : ni < 0
      · rw [if_pos h1]; exact h
      · rw [if_neg h1]
        by_cases h2 : p.2.getD ni.toNat false = true
        · rw [if_pos h2]; exact h
        · rw [if_neg h2]
          by_cases h3 : grid.getD ni.toNat none ≠ some lab
          · rw [if_pos h3]; exact h
          · rw [if_neg h3]
            intro s hs
            rcases List.mem_cons.mp hs with h4 | h4
            · rw [h4]; exact not_ne_iff.mp h3
            · exact h s h4

lemma flood_popped_label (grid : List (Option String)) (rows cols : ℕ) (lab : String) :
    ∀ (fuel : ℕ) (stack : List ℕ) (vis : List Bool),
      (∀ s ∈ stack, grid.getD s none = some lab) →
      ∀ ci ∈ (flood grid rows cols lab fuel stack vis).1,
        grid.getD ci none = some lab := by
  intro fuel
  induction fuel with
  | zero =>
      intro stack vis h ci hci
      simp [flood] at hci
  | succ fuel ih =>
      intro stack vis h ci hci
      cases stack with
      | nil => simp [flood] at hci
      | cons c0 rest =>
          simp only [flood] at hci
          rcases List.mem_cons.mp hci with h1 | h1
          · rw [h1]
            exact h c0 (List.mem_cons_self c0 rest)
          · refine ih _ _ ?_ ci h1
            exact flood_push_aux grid lab (neighbors4 rows cols c0) (rest, vis)
              (fun s hs => h s (List.mem_cons_of_mem c0 hs))

lemma maxCountLabel_aux (counts : List (String × ℕ)) :
    ∀ init : Option String × ℕ,
      (counts.foldl (fun p q => if p.2 < q.2 then (some q.1, q.2) else p) init).1 = init.1 ∨
        ∃ q ∈ counts,
          (counts.foldl (fun p q => if p.2 < q.2 then (some q.1, q.2) else p) init).1 =
            some q.1 := by
  induction counts with
  | nil => intro init; exact Or.inl rfl
  | cons q counts ih =>
      intro init
      rw [List.foldl_cons]
      rcases ih (if init.2 < q.2 then (some q.1, q.2) else init) with h | ⟨r, hr, he⟩
      · by_cases hlt : init.2 < q.2
        · refine Or.inr ⟨q, List.mem_cons_self q counts, ?_⟩
          rw [if_pos hlt] at h ⊢
          exact h
        · refine Or.inl ?_
          rw [if_neg hlt] at h ⊢
          exact h
      · exact Or.inr ⟨r, List.mem_cons_of_mem q hr, he⟩

lemma maxCountLabel_mem (counts : List (String × ℕ)) (r : String)
    (h : maxCountLabel counts = some r) : ∃ n, (r, n) ∈ counts := by
  unfold maxCountLabel at h
  rcases maxCountLabel_aux counts (none, 0) with h1 | ⟨q, hq, he⟩
  · rw [h1] at h
    cases h
  · rw [he] at h
    have hqr : q.1 = r := by
      cases h
      rfl
    refine ⟨q.2, ?_⟩
    rw [← hqr]
    simpa using hq

lemma rnc_inner_aux (grid : List (Option String)) (beerId : String) (ns : List ℤ) :
    ∀ m : List (String × ℕ), (∀ p ∈ m, ∃ j, grid.getD j none = some p.1) →
      ∀ p ∈ ns.foldl (fun m (ni : ℤ) =>
          if ni < 0 then m
          else
            match grid.getD ni.toNat none with
            | none => m
            | some nb => if nb == beerId then m else mapSet m nb (mapGetD m nb 0 + 1)) m,
        ∃ j, grid.getD j none = some p.1 := by
  induction ns with
  | nil => intro m h p hp; exact h p hp
  | cons ni ns ih =>
      intro m h
      rw [List.foldl_cons]
      apply ih
      by_cases h1 : ni < 0
      · rw [if_pos h1]; exact h
      · rw [if_neg h1]
        rcases hg : grid.getD ni.toNat none with _ | nb
        · exact h
        · dsimp only
          by_cases h2 : (nb == beerId) = true
          · rw [if_pos h2]; exact h
          · rw [if_neg h2]
            intro p hp
            rcases mem_mapSet _ _ _ p hp with h3 | h3
            · refine ⟨ni.toNat, ?_⟩
              rw [hg, h3]
            · exact h p h3

lemma rnc_outer_aux (grid : List (Option String)) (rows cols : ℕ) (beerId : String) :
    ∀ (rc : List ℕ) (m : List (String × ℕ)),
      (∀ p ∈ m, ∃ j, grid.getD j none = some p.1) →
      ∀ p ∈ rc.foldl (fun m ci =>
          (neighbors4 rows cols ci).foldl (fun m (ni : ℤ) =>
            if ni < 0 then m
            else
              match grid.getD ni.toNat none with
              | none => m
              | some nb => if nb == beerId then m else mapSet m nb (mapGetD m nb 0 + 1)) m) m,
        ∃ j, grid.getD j none = some p.1 := by
  intro rc
  induction rc with
  | nil => intro m h p hp; exact h p hp
  | cons ci rc ih =>
      intro m h
      rw [List.foldl_cons]
      exact ih _ (rnc_inner_aux grid beerId (neighbors4 rows cols ci) m h)

lemma regionNeighborCounts_keys (grid : List (Option String)) (rows cols : ℕ)
    (beerId : String) (rc : List ℕ) :
    ∀ p ∈ regionNeighborCounts grid rows cols beerId rc,
      ∃ j, grid.getD j none = some p.1 := by
  unfold regionNeighborCounts
  exact rnc_outer_aux grid rows cols beerId rc [] (by simp)

lemma mergeScanStep_nullset (rows cols minSize : ℕ)
    (st : List (Option String) × List Bool) (idx j : ℕ) :
    ((mergeScanStep rows cols minSize st idx).1.getD j none = none ↔
      st.1.getD j none = none) := by
  unfold mergeScanStep
  split
  · exact Iff.rfl
  · split
    · exact Iff.rfl
    · rename_i beerId heq
      dsimp only
      split
      · exact Iff.rfl
      · split
        · exact Iff.rfl
        · rename_i repl hrepl
          rcases setAll_cases
              (flood st.1 rows cols beerId (rows * cols + 1) [idx] (st.2.set idx true)).1
              (some repl) j st.1 with h | ⟨hj, he⟩
          · rw [h]
          · rw [he]
            have hlab : st.1.getD j none = some beerId :=
              flood_popped_label st.1 rows cols beerId (rows * cols + 1) [idx]
                (st.2.set idx true) (by intro s hs; rw [List.mem_singleton.mp hs]; exact heq)
                j hj
            rw [hlab]
            simp

lemma mergeScanStep_labels (rows cols minSize : ℕ)
    (st : List (Option String) × List Bool) (idx j : ℕ) (l : String)
    (h : (mergeScanStep rows cols minSize st idx).1.getD j none = some l) :
    ∃ jp, st.1.getD jp none = some l := by
  revert h
  unfold mergeScanStep
  split
  · intro h; exact ⟨j, h⟩
  · split
    · intro h; exact ⟨j, h⟩
    · rename_i beerId heq
      dsimp only
      split
      · intro h; exact ⟨j, h⟩
      · split
        · intro h; exact ⟨j, h⟩
        · rename_i repl hrepl
          intro h
          rcases setAll_cases
              (flood st.1 rows cols beerId (rows * cols + 1) [idx] (st.2.set idx true)).1
              (some repl) j st.1 with h1 | ⟨hj, he⟩
          · rw [h1] at h
            exact ⟨j, h⟩
          · rw [he] at h
            have hrl : repl = l := by
              cases h
              rfl
            rcases maxCountLabel_mem _ _ hrepl with ⟨nn, hmem⟩
            rcases regionNeighborCounts_keys st.1 rows cols beerId _ (repl, nn) hmem with
              ⟨jp, hjp⟩
            exact ⟨jp, hrl ▸ hjp⟩

lemma mergeFold_nullset (rows cols minSize : ℕ) (l : List ℕ) :
    ∀ (st : List (Option String) × List Bool) (j : ℕ),
      ((l.foldl (mergeScanStep rows cols minSize) st).1.getD j none = none ↔
        st.1.getD j none = none) := by
  induction l with
  | nil => intro st j; exact Iff.rfl
  | cons idx l ih =>
      intro st j
      rw [List.foldl_cons, ih]
      exact mergeScanStep_nullset rows cols minSize st idx j

lemma mergeFold_labels (rows cols minSize : ℕ) (l : List ℕ) :
    ∀ (st : List (Option String) × List Bool) (j : ℕ) (lab : String),
      (l.foldl (mergeScanStep rows cols minSize) st).1.getD j none = some lab →
      ∃ jp, st.1.getD jp none = some lab := by
  induction l with
  | nil => intro st j lab h; exact ⟨j, h⟩
  | cons idx l ih =>
      intro st j lab h
      rw [List.foldl_cons] at h
      rcases ih _ j lab h with ⟨jp, hjp⟩
      exact mergeScanStep_labels rows cols minSize st idx jp lab hjp

lemma winner_update_eq (c : CellResult) (w : Option String) :
    ({ c with winnerBeerId := w } : CellResult).winnerBeerId = w := rfl

/-- C10: both post-processing passes exactly preserve the null-set of the
winner grid (a cell's winner is null after the pass iff it was null before),
and every non-null winner label present after a pass already occurred as some
cell's winner label before the pass.  The grid is assumed well-formed: every
cell's `(row, col)` is in bounds and no two cells share a flat index. -/
theorem claim_C10_null_set_and_label_preservation (cells : List CellResult)
    (rows cols n minSize i : ℕ) (hi : i < cells.length)
    (hwf1 : ∀ c ∈ cells, c.row < rows ∧ c.col < cols)
    (hwf2 : (cells.map fun c => c.row * cols + c.col).Nodup) :
    (((smoothWinnerGrid cells rows cols n).getD i default).winnerBeerId = none ↔
        (cells.getD i default).winnerBeerId = none) ∧
      (∀ l, ((smoothWinnerGrid cells rows cols n).getD i default).winnerBeerId = some l →
        ∃ c ∈ cells, c.winnerBeerId = some l) ∧
      (((mergeSmallIslands cells rows cols minSize).getD i default).winnerBeerId = none ↔
        (cells.getD i default).winnerBeerId = none) ∧
      (∀ l, ((mergeSmallIslands cells rows cols minSize).getD i default).winnerBeerId =
          some l → ∃ c ∈ cells, c.winnerBeerId = some l) := by
  have hc : cells[i]? = some cells[i] := List.getElem?_eq_getElem hi
  have hcd : cells.getD i default = cells[i] := by
    simp [List.getD_eq_getElem?_getD, hc]
  have hmem : cells[i] ∈ cells := List.getElem_mem hi
  obtain ⟨hr, hcc⟩ := hwf1 cells[i] hmem
  have hidx : cells[i].row * cols + cells[i].col < rows * cols :=
    idx_lt_size _ _ _ _ hr hcc
  have hg0 : (gridOf cells cols (rows * cols)).getD
      (cells[i].row * cols + cells[i].col) none = cells[i].winnerBeerId :=
    gridOf_getD_of_mem cells cols _ cells[i] hmem hwf2 hidx
  refine ⟨?_, ?_, ?_, ?_⟩
  · by_cases h0 : n = 0
    · subst h0
      unfold smoothWinnerGrid
      rw [if_pos rfl]
    · unfold smoothWinnerGrid
      rw [if_neg h0]
      rw [hcd, List.getD_eq_getElem?_getD, List.getElem?_map, hc]
      simp only [Option.map_some', Option.getD_some, winner_update_eq]
      rw [smoothLoop_getD_none_iff rows cols n _ hidx, hg0]
  · intro l h
    by_cases h0 : n = 0
    · subst h0
      unfold smoothWinnerGrid at h
      rw [if_pos rfl, hcd] at h
      exact ⟨cells[i], hmem, h⟩
    · unfold smoothWinnerGrid at h
      rw [if_neg h0] at h
      rw [List.getD_eq_getElem?_getD, List.getElem?_map, hc] at h
      simp only [Option.map_some', Option.getD_some, winner_update_eq] at h
      rcases smoothLoop_getD_some rows cols n _ _ _ h with ⟨j, hj⟩
      exact gridOf_labels cells cols (rows * cols) j l hj
  · by_cases h0 : minSize ≤ 1
    · unfold mergeSmallIslands
      rw [if_pos h0]
    · unfold mergeSmallIslands
      rw [if_neg h0]
      rw [hcd, List.getD_eq_getElem?_getD, List.getElem?_map, hc]
      simp only [Option.map_some', Option.getD_some, winner_update_eq]
      rw [mergeFold_nullset, hg0]
  · intro l h
    by_cases h0 : minSize ≤ 1
    · unfold mergeSmallIslands at h
      rw [if_pos h0, hcd] at h
      exact ⟨cells[i], hmem, h⟩
    · unfold mergeSmallIslands at h
      rw [if_neg h0] at h
      rw [List.getD_eq_getElem?_getD, List.getElem?_map, hc] at h
      simp only [Option.map_some', Option.getD_some, winner_update_eq] at h
      rcases mergeFold_labels rows cols minSize _ _ _ _ h with ⟨jp, hjp⟩
      exact gridOf_labels cells cols (rows * cols) jp l hjp

/-- Witness for C10 at a concrete one-cell grid. -/
theorem claim_C10_witness :
    (((smoothWinnerGrid [zeroResult 0 0] 1 1 2).getD 0 default).winnerBeerId = none ↔
        (([zeroResult 0 0] : List CellResult).getD 0 default).winnerBeerId = none) ∧
      (∀ l, ((smoothWinnerGrid [zeroResult 0 0] 1 1 2).getD 0 default).winnerBeerId =
          some l → ∃ c ∈ [zeroResult 0 0], c.winnerBeerId = some l) ∧
      (((mergeSmallIslands [zeroResult 0 0] 1 1 8).getD 0 default).winnerBeerId = none ↔
        (([zeroResult 0 0] : List CellResult).getD 0 default).winnerBeerId = none) ∧
      (∀ l, ((mergeSmallIslands [zeroResult 0 0] 1 1 8).getD 0 default).winnerBeerId =
          some l → ∃ c ∈ [zeroResult 0 0], c.winnerBeerId = some l) :=
  claim_C10_null_set_and_label_preservation [zeroResult 0 0] 1 1 2 8 0 (by simp)
    (by intro c hc; rw [List.mem_singleton.mp hc]; exact ⟨Nat.zero_lt_one, Nat.zero_lt_one⟩)
    (by simp)

/-! ## Grid enumeration indexing and the point-lookup round trip (towards C7) -/

lemma floor_add_half (n : ℕ) : ⌊(n : ℝ) + 0.5⌋ = (n : ℤ) := by
  rw [Int.floor_eq_iff]
  constructor
  · push_cast
    norm_num
  · push_cast
    norm_num

lemma flatMap_length_const {α : Type} (g : ℕ → List α) (C : ℕ)
    (hg : ∀ i, (g i).length = C) (R : ℕ) :
    ((List.range R).flatMap g).length = R * C := by
  induction R with
  | zero => simp
  | succ R ih =>
      rw [List.range_succ, List.flatMap_append, List.length_append, ih]
      simp [hg]
      ring

lemma flatMap_range_getElem? {α : Type} (g : ℕ → List α) (C : ℕ)
    (hg : ∀ i, (g i).length = C) (R r c : ℕ) (hr : r < R) (hc : c < C) :
    ((List.range R).flatMap g)[r * C + c]? = (g r)[c]? := by
  induction R with
  | zero => omega
  | succ R ih =>
      rw [List.range_succ, List.flatMap_append]
      by_cases h : r < R
      · rw [List.getElem?_append_left]
        · exact ih h
        · rw [flatMap_length_const g C hg R]
          calc r * C + c < r * C + C := by omega
            _ = (r + 1) * C := by ring
            _ ≤ R * C := Nat.mul_le_mul_right C h
      · have hrR : r = R := by omega
        subst hrR
        rw [List.getElem?_append_right (by rw [flatMap_length_const g C hg]; omega)]
        rw [flatMap_length_const g C hg]
        have hsimp : [r].flatMap g = g r := by simp
        rw [hsimp]
        congr 1
        omega

lemma buildCellResult_row_col (row col : ℕ) (acc : AccumState) :
    (buildCellResult row col acc).row = row ∧ (buildCellResult row col acc).col = col := by
  unfold buildCellResult
  by_cases hz : acc.2 = 0
  · rw [if_pos hz]
    exact ⟨rfl, rfl⟩
  · rw [if_neg hz]
    exact ⟨rfl, rfl⟩

/-- C7: for every valid grid spec (latitudes inside the polar-singularity-free
band) and every enumerated cell, `findCellAt` applied to that cell's center
returns exactly the dominance result stored at the same `(row, col)` — the
point-to-cell lookup is a left inverse of grid enumeration on cell centers. -/
theorem claim_C7_lookup_roundtrip (spec : GridSpec) (votes : List Vote) (radiusKm : ℚ)
    (wvotes : List WeightedVote)
    (h1 : spec.minLat < spec.maxLat) (h2 : spec.minLon < spec.maxLon)
    (h3 : 0 < spec.cellSizeMeters) (h4 : -90 < spec.minLat) (h5 : spec.maxLat < 90)
    (r c : ℕ) (hr : r < (precomputeGrid spec).rows.toNat)
    (hc : c < (precomputeGrid spec).cols.toNat) :
    enumCell spec r c ∈ (precomputeGrid spec).cells ∧
      ∃ res : CellResult,
        (computeDominance (precomputeGrid spec).cells votes radiusKm wvotes)[
            r * (precomputeGrid spec).cols.toNat + c]? = some res ∧
        findCellAt (enumCell spec r c).centerLat (enumCell spec r c).centerLon
            { rows := (precomputeGrid spec).rows, cols := (precomputeGrid spec).cols,
              cells := computeDominance (precomputeGrid spec).cells votes radiusKm wvotes,
              gridSpec := spec } = some res ∧
        res.row = r ∧ res.col = c := by
  have hpg_rows : (precomputeGrid spec).rows =
      ⌊(spec.maxLat - spec.minLat) / (spec.cellSizeMeters / METERS_PER_DEG_LAT)⌋ := rfl
  have hpg_cells : (precomputeGrid spec).cells =
      (List.range (precomputeGrid spec).rows.toNat).flatMap
        (fun r => (List.range (precomputeGrid spec).cols.toNat).map fun c =>
          enumCell spec r c) := rfl
  have hM : (0 : ℝ) < METERS_PER_DEG_LAT := by norm_num [METERS_PER_DEG_LAT]
  have hdLat : 0 < spec.cellSizeMeters / METERS_PER_DEG_LAT := div_pos h3 hM
  -- membership of the enumerated cell
  have hmem : enumCell spec r c ∈ (precomputeGrid spec).cells := by
    rw [hpg_cells]
    exact List.mem_flatMap.mpr ⟨r, List.mem_range.mpr hr,
      List.mem_map_of_mem _ (List.mem_range.mpr hc)⟩
  -- the enumerated cell sits at flat index r * cols + c
  have hcell : (precomputeGrid spec).cells[r * (precomputeGrid spec).cols.toNat + c]? =
      some (enumCell spec r c) := by
    rw [hpg_cells, flatMap_range_getElem? _ _ (fun i => by simp) _ r c hr hc,
      List.getElem?_map, List.getElem?_range hc]
    rfl
  have hcd := computeDominance_getElem? (precomputeGrid spec).cells votes radiusKm wvotes
    (r * (precomputeGrid spec).cols.toNat + c)
  rw [hcell, Option.map_some'] at hcd
  set res0 := (if (votes.isEmpty && wvotes.isEmpty) = true then
      zeroResult (enumCell spec r c).row (enumCell spec r c).col
      else buildCellResult (enumCell spec r c).row (enumCell spec r c).col
        (cellWeights (enumCell spec r c) votes radiusKm wvotes)) with hres0
  have hres_row : res0.row = r ∧ res0.col = c := by
    rw [hres0]
    by_cases hb : (votes.isEmpty && wvotes.isEmpty) = true
    · rw [if_pos hb]
      exact ⟨rfl, rfl⟩
    · rw [if_neg hb]
      exact buildCellResult_row_col _ _ _
  -- numeric facts
  have hfloorR : ⌊((enumCell spec r c).centerLat - spec.minLat) /
      metersToDegLat spec.cellSizeMeters⌋ = (r : ℤ) := by
    have he : (enumCell spec r c).centerLat - spec.minLat =
        ((r : ℝ) + 0.5) * (spec.cellSizeMeters / METERS_PER_DEG_LAT) := by
      show rowCenterLat spec r - spec.minLat = _
      unfold rowCenterLat
      ring
    rw [he, show metersToDegLat spec.cellSizeMeters =
      spec.cellSizeMeters / METERS_PER_DEG_LAT from rfl,
      mul_div_cancel_right₀ _ (ne_of_gt hdLat)]
    exact floor_add_half r
  have hrowZ : (r : ℤ) < (precomputeGrid spec).rows := Int.lt_toNat.mp hr
  have hclat : spec.minLat + (((r : ℤ) : ℝ) + 0.5) * metersToDegLat spec.cellSizeMeters =
      rowCenterLat spec r := by
    unfold rowCenterLat metersToDegLat
    push_cast
    ring
  have hr0 : (0 : ℝ) ≤ (r : ℝ) := Nat.cast_nonneg r
  have hlow : spec.minLat < rowCenterLat spec r := by
    unfold rowCenterLat
    nlinarith [hdLat]
  have hup : rowCenterLat spec r < spec.maxLat := by
    have h6 : ((r : ℤ) + 1) ≤ (precomputeGrid spec).rows := by omega
    rw [hpg_rows] at h6
    have h7 := Int.le_floor.mp h6
    have h8 : ((r : ℝ) + 1) * (spec.cellSizeMeters / METERS_PER_DEG_LAT) ≤
        spec.maxLat - spec.minLat := by
      rw [← le_div_iff₀ hdLat]
      push_cast at h7
      exact h7
    unfold rowCenterLat
    nlinarith [hdLat]
  have hcosr : 0 < Real.cos (rowCenterLat spec r * DEG_TO_RAD) := by
    have hπ := Real.pi_pos
    apply Real.cos_pos_of_mem_Ioo
    constructor
    · unfold DEG_TO_RAD
      have hgl : (-90 : ℝ) < rowCenterLat spec r := lt_trans h4 hlow
      nlinarith
    · unfold DEG_TO_RAD
      have hgu : rowCenterLat spec r < 90 := lt_trans hup h5
      nlinarith
  have hrowdlon_pos : 0 < rowDLon spec r := by
    unfold rowDLon
    exact div_pos h3 (mul_pos hM hcosr)
  have hfloorC : ⌊((enumCell spec r c).centerLon - spec.minLon) /
      metersToDegLon spec.cellSizeMeters (rowCenterLat spec r)⌋ = (c : ℤ) := by
    have he : (enumCell spec r c).centerLon - spec.minLon = ((c : ℝ) + 0.5) * rowDLon spec r := by
      show spec.minLon + ((c : ℝ) + 0.5) * rowDLon spec r - spec.minLon = _
      ring
    rw [he, show metersToDegLon spec.cellSizeMeters (rowCenterLat spec r) =
      rowDLon spec r from rfl, mul_div_cancel_right₀ _ (ne_of_gt hrowdlon_pos)]
    exact floor_add_half c
  have hcolZ : (c : ℤ) < (precomputeGrid spec).cols := Int.lt_toNat.mp hc
  have hcolspos : (0 : ℤ) < (precomputeGrid spec).cols := by omega
  have hidx : ((r : ℤ) * (precomputeGrid spec).cols + (c : ℤ)).toNat =
      r * (precomputeGrid spec).cols.toNat + c := by
    have h9 : (r : ℤ) * (precomputeGrid spec).cols + (c : ℤ) =
        ((r * (precomputeGrid spec).cols.toNat + c : ℕ) : ℤ) := by
      push_cast
      rw [Int.toNat_of_nonneg hcolspos.le]
    rw [h9, Int.toNat_natCast]
  refine ⟨hmem, ?_⟩
  refine ⟨_, hcd, ?_, hres_row.1, hres_row.2⟩
  -- evaluate findCellAt
  simp only [findCellAt]
  rw [hfloorR]
  have hcond1 : ¬((r : ℤ) < 0 ∨ (precomputeGrid spec).rows ≤ (r : ℤ)) := by
    push_neg
    exact ⟨by omega, hrowZ⟩
  rw [if_neg hcond1]
  rw [hclat, hfloorC]
  have hcond2 : ¬((c : ℤ) < 0 ∨ (precomputeGrid spec).cols ≤ (c : ℤ)) := by
    push_neg
    exact ⟨by omega, hcolZ⟩
  rw [if_neg hcond2]
  rw [List.get?_eq_getElem?, hidx, hcd]
  dsimp only
  have hcondEq : (res0.row : ℤ) = (r : ℤ) ∧ (res0.col : ℤ) = (c : ℤ) := by
    constructor
    · rw [hres_row.1]
    · rw [hres_row.2]
  rw [if_pos hcondEq]

/-- Witness for C7: the 2x1 equator-symmetric grid, cell (0, 0), no votes. -/
theorem claim_C7_witness :
    enumCell c7spec 0 0 ∈ (precomputeGrid c7spec).cells ∧
      ∃ res : CellResult,
        (computeDominance (precomputeGrid c7spec).cells [] 1 [])[
            0 * (precomputeGrid c7spec).cols.toNat + 0]? = some res ∧
        findCellAt (enumCell c7spec 0 0).centerLat (enumCell c7spec 0 0).centerLon
            { rows := (precomputeGrid c7spec).rows, cols := (precomputeGrid c7spec).cols,
              cells := computeDominance (precomputeGrid c7spec).cells [] 1 [],
              gridSpec := c7spec } = some res ∧
        res.row = 0 ∧ res.col = 0 := by
  have hrows : (precomputeGrid c7spec).rows = 2 := by
    show ⌊((1 : ℝ) - (-1)) / ((111320 : ℝ) / 111320)⌋ = 2
    norm_num
  have hcols : (precomputeGrid c7spec).cols = 1 := by
    show ⌊((1 : ℝ) - 0) / ((111320 : ℝ) /
      (111320 * Real.cos (((-1) + 1) / 2 * DEG_TO_RAD)))⌋ = 1
    rw [show ((-1 : ℝ) + 1) / 2 * DEG_TO_RAD = 0 by ring, Real.cos_zero]
    norm_num
  exact claim_C7_lookup_roundtrip c7spec [] 1 [] (by norm_num [c7spec])
    (by norm_num [c7spec]) (by norm_num [c7spec]) (by norm_num [c7spec])
    (by norm_num [c7spec]) 0 0 (by rw [hrows]; norm_num) (by rw [hcols]; norm_num)


/-- C6 counterexample: in the 1 x 7 strip C C C A B A A with minSize 3, the
singleton B region at column 4 has both of its 4-connected neighbors labeled
A in the original grid, so the claim (which reads neighbor counts off the
original grid) requires it to be reassigned to A; `mergeSmallIslands`
instead returns C there (indeed the whole strip becomes C), because by the
time the scan reaches column 4 the singleton A at column 3 has already been
absorbed into C and the neighbor counts are taken on the partially-updated
grid. -/
theorem claim_C6_counterexample :
    cexStrip.map (fun cr => cr.winnerBeerId) =
      [some "C", some "C", some "C", some "A", some "B", some "A", some "A"] ∧
    (mergeSmallIslands cexStrip 1 7 3).map (fun cr => cr.winnerBeerId) =
      [some "C", some "C", some "C", some "C", some "C", some "C", some "C"] := by
  decide

/-- C6 (amended): `mergeSmallIslands` with minSize at most 1 returns the
input unchanged; under its sequential, current-grid semantics the claim's
instances still hold in isolation: the 2-cell A region of A A B with
minSize 3 (exactly minSize - 1 cells, adjacent only to B) is fully
reassigned to B; the two exactly-minSize regions of A A B B with minSize 2
are left unchanged; a small region whose only neighbor is null is left
unchanged; but on the C C C A B A A strip with minSize 3 the output differs
from the original-grid reading (earlier merges feed into later neighbor
counts). -/
theorem claim_C6_amended_sequential_current_grid_merge :
    (∀ (cells : List CellResult) (rows cols minSize : ℕ), minSize ≤ 1 →
        mergeSmallIslands cells rows cols minSize = cells) ∧
    (mergeSmallIslands c6pair 1 3 3).map (fun cr => cr.winnerBeerId) =
      [some "B", some "B", some "B"] ∧
    (mergeSmallIslands c6even 1 4 2).map (fun cr => cr.winnerBeerId) =
      [some "A", some "A", some "B", some "B"] ∧
    (mergeSmallIslands c6null 1 2 2).map (fun cr => cr.winnerBeerId) =
      [none, some "A"] ∧
    (mergeSmallIslands cexStrip 1 7 3).map (fun cr => cr.winnerBeerId) ≠
      cexStrip.map (fun cr => cr.winnerBeerId) := by
  refine ⟨?_, by decide, by decide, by decide, by decide⟩
  intro cells rows cols minSize h
  unfold mergeSmallIslands
  rw [if_pos h]

/-- Witness for the amended C6: minSize 1 leaves the A A B strip unchanged. -/
theorem claim_C6_amended_witness :
    mergeSmallIslands c6pair 1 3 1 = c6pair :=
  claim_C6_amended_sequential_current_grid_merge.1 c6pair 1 3 1 (by decide)

/-! ## Flood-fill characterization and region extraction (towards C8) -/

lemma getD_set_true_iff (vis : List Bool) (x j : ℕ) (hx : x < vis.length) :
    ((vis.set x true).getD j false = true) ↔ (vis.getD j false = true ∨ j = x) := by
  rw [List.getD_eq_getElem?_getD, List.getD_eq_getElem?_getD, List.getElem?_set]
  by_cases h : x = j
  · subst h
    simp [hx]
  · rw [if_neg h]
    constructor
    · exact Or.inl
    · rintro (h1 | h2)
      · exact h1
      · exact absurd h2.symm h

lemma getD_true_mono_set (vis : List Bool) (x j : ℕ) (h : vis.getD j false = true) :
    (vis.set x true).getD j false = true := by
  rw [List.getD_eq_getElem?_getD, List.getElem?_set]
  by_cases hxj : x = j
  · subst hxj
    have hlt : x < vis.length := by
      by_contra hge
      rw [List.getD_eq_getElem?_getD, List.getElem?_eq_none (by omega)] at h
      simp at h
    simp [hlt]
  · rw [if_neg hxj, ← List.getD_eq_getElem?_getD]
    exact h

lemma count_false_set_true (vis : List Bool) (x : ℕ) (hx : x < vis.length)
    (hf : vis.getD x false = false) :
    (vis.set x true).count false + 1 = vis.count false := by
  have hgx : vis[x] = false := by
    rw [List.getD_eq_getElem?_getD, List.getElem?_eq_getElem hx] at hf
    simpa using hf
  have hmem : false ∈ vis := by
    rw [← hgx]
    exact vis.getElem_mem hx
  have hpos : 0 < vis.count false := List.count_pos_iff.mpr hmem
  rw [List.count_set _ _ _ _ hx]
  simp [hgx]
  omega

lemma getD_lt_length_of_ne_default {α : Type} (l : List α) (j : ℕ) (d : α)
    (h : l.getD j d ≠ d) : j < l.length := by
  by_contra hge
  rw [List.getD_eq_getElem?_getD, List.getElem?_eq_none (by omega)] at h
  simp at h

lemma conn_label (grid : List (Option String)) (rows cols : ℕ) {i j : ℕ}
    (h : Conn grid rows cols i j) : grid.getD j none = grid.getD i none := by
  induction h with
  | refl => rfl
  | tail _ hstep ih => rw [hstep.2.2, ih]

lemma rowcol_div_mod (q r cols : ℕ) (h : r < cols) :
    (q * cols + r) / cols = q ∧ (q * cols + r) % cols = r := by
  have hc : 0 < cols := by omega
  constructor
  · rw [Nat.add_comm, Nat.add_mul_div_right _ _ hc, Nat.div_eq_of_lt h]
    omega
  · rw [Nat.add_comm, Nat.add_mul_mod_self_right, Nat.mod_eq_of_lt h]

lemma nbr_symm (rows cols i j : ℕ) (hi : i < rows * cols)
    (h : (j : ℤ) ∈ neighbors4 rows cols i) : (i : ℤ) ∈ neighbors4 rows cols j := by
  have hcols : 0 < cols := by
    rcases Nat.eq_zero_or_pos cols with h0 | h0
    · rw [h0, Nat.mul_zero] at hi
      omega
    · exact h0
  have hr : i % cols < cols := Nat.mod_lt _ hcols
  have hq : i / cols < rows := (Nat.div_lt_iff_lt_mul hcols).mpr hi
  have hieq : cols * (i / cols) + i % cols = i := Nat.div_add_mod i cols
  have hieqz : ((cols : ℤ)) * ((i / cols : ℕ) : ℤ) + ((i % cols : ℕ) : ℤ) = (i : ℤ) := by
    exact_mod_cast hieq
  simp only [neighbors4, List.mem_cons, List.not_mem_nil, or_false] at h ⊢
  rcases h with h1 | h1 | h1 | h1
  · -- j is the up-neighbor of i; i is the down-neighbor of j
    by_cases hg : 0 < i / cols
    · rw [if_pos hg] at h1
      have hj' : j = (i / cols - 1) * cols + i % cols := by
        have hcast : (((i / cols - 1) * cols + i % cols : ℕ) : ℤ) =
            (((i / cols : ℕ) : ℤ) - 1) * cols + ((i % cols : ℕ) : ℤ) := by
          push_cast [Nat.cast_sub (show 1 ≤ i / cols from hg)]
          ring
        exact_mod_cast h1.trans hcast.symm
      have hjd : j / cols = i / cols - 1 := by
        rw [hj']
        exact (rowcol_div_mod _ _ _ hr).1
      have hjm : j % cols = i % cols := by
        rw [hj']
        exact (rowcol_div_mod _ _ _ hr).2
      refine Or.inr (Or.inl ?_)
      rw [hjd, hjm, if_pos (show i / cols - 1 < rows - 1 by omega)]
      rw [Nat.cast_sub (show 1 ≤ i / cols from hg), Nat.cast_one]
      linear_combination -hieqz
    · rw [if_neg hg] at h1
      omega
  · -- j is the down-neighbor of i; i is the up-neighbor of j
    by_cases hg : i / cols < rows - 1
    · rw [if_pos hg] at h1
      have hj' : j = (i / cols + 1) * cols + i % cols := by
        have hcast : (((i / cols + 1) * cols + i % cols : ℕ) : ℤ) =
            (((i / cols : ℕ) : ℤ) + 1) * cols + ((i % cols : ℕ) : ℤ) := by
          push_cast
          ring
        exact_mod_cast h1.trans hcast.symm
      have hjd : j / cols = i / cols + 1 := by
        rw [hj']
        exact (rowcol_div_mod _ _ _ hr).1
      have hjm : j % cols = i % cols := by
        rw [hj']
        exact (rowcol_div_mod _ _ _ hr).2
      refine Or.inl ?_
      rw [hjd, hjm]
      have hcond : 0 < i / cols + 1 := Nat.succ_pos _
      rw [if_pos hcond]
      rw [Nat.cast_add, Nat.cast_one]
      linear_combination -hieqz
    · rw [if_neg hg] at h1
      omega
  · -- j is the left-neighbor of i; i is the right-neighbor of j
    by_cases hg : 0 < i % cols
    · rw [if_pos hg] at h1
      have hj' : j = i / cols * cols + (i % cols - 1) := by
        have hcast : ((i / cols * cols + (i % cols - 1) : ℕ) : ℤ) =
            ((i / cols : ℕ) : ℤ) * cols + (((i % cols : ℕ) : ℤ) - 1) := by
          push_cast [Nat.cast_sub (show 1 ≤ i % cols from hg)]
          ring
        exact_mod_cast h1.trans hcast.symm
      have hjd : j / cols = i / cols := by
        rw [hj']
        exact (rowcol_div_mod _ _ _ (by omega)).1
      have hjm : j % cols = i % cols - 1 := by
        rw [hj']
        exact (rowcol_div_mod _ _ _ (by omega)).2
      refine Or.inr (Or.inr (Or.inr ?_))
      rw [hjd, hjm, if_pos (show i % cols - 1 < cols - 1 by omega)]
      rw [Nat.cast_sub (show 1 ≤ i % cols from hg), Nat.cast_one]
      linear_combination -hieqz
    · rw [if_neg hg] at h1
      omega
  · -- j is the right-neighbor of i; i is the left-neighbor of j
    by_cases hg : i % cols < cols - 1
    · rw [if_pos hg] at h1
      have hj' : j = i / cols * cols + (i % cols + 1) := by
        have hcast : ((i / cols * cols + (i % cols + 1) : ℕ) : ℤ) =
            ((i / cols : ℕ) : ℤ) * cols + (((i % cols : ℕ) : ℤ) + 1) := by
          push_cast
          ring
        exact_mod_cast h1.trans hcast.symm
      have hjd : j / cols = i / cols := by
        rw [hj']
        exact (rowcol_div_mod _ _ _ (by omega)).1
      have hjm : j % cols = i % cols + 1 := by
        rw [hj']
        exact (rowcol_div_mod _ _ _ (by omega)).2
      refine Or.inr (Or.inr (Or.inl ?_))
      rw [hjd, hjm, if_pos (show 0 < i % cols + 1 by omega)]
      rw [Nat.cast_add, Nat.cast_one]
      linear_combination -hieqz
    · rw [if_neg hg] at h1
      omega

lemma labStep_symm (grid : List (Option String)) (rows cols : ℕ)
    (hg : grid.length = rows * cols) {i j : ℕ}
    (h : labStep grid rows cols i j) : labStep grid rows cols j i := by
  obtain ⟨hnb, hi, hij⟩ := h
  have hilen : i < rows * cols := hg ▸ getD_lt_length_of_ne_default grid i none hi
  refine ⟨nbr_symm rows cols i j hilen hnb, ?_, ?_⟩
  · rw [hij]
    exact hi
  · rw [hij]

lemma conn_symm (grid : List (Option String)) (rows cols : ℕ)
    (hg : grid.length = rows * cols) {i j : ℕ}
    (h : Conn grid rows cols i j) : Conn grid rows cols j i :=
  Relation.ReflTransGen.symmetric (fun _ _ hs => labStep_symm grid rows cols hg hs) h

lemma flood_fold_spec (grid : List (Option String)) (lab : String) (L : List ℤ) :
    ∀ (rest : List ℕ) (vis : List Bool), grid.length = vis.length →
    ∃ new : List ℕ,
      (L.foldl (fun (p : List ℕ × List Bool) ni =>
          if ni < 0 then p
          else if p.2.getD ni.toNat false then p
          else if grid.getD ni.toNat none ≠ some lab then p
          else (ni.toNat :: p.1, p.2.set ni.toNat true)) (rest, vis)).1 = new ++ rest ∧
      new.Nodup ∧
      (∀ x ∈ new, (x : ℤ) ∈ L ∧ vis.getD x false = false ∧
        grid.getD x none = some lab) ∧
      (L.foldl (fun (p : List ℕ × List Bool) ni =>
          if ni < 0 then p
          else if p.2.getD ni.toNat false then p
          else if grid.getD ni.toNat none ≠ some lab then p
          else (ni.toNat :: p.1, p.2.set ni.toNat true)) (rest, vis)).2.length = vis.length ∧
      (∀ j, (L.foldl (fun (p : List ℕ × List Bool) ni =>
          if ni < 0 then p
          else if p.2.getD ni.toNat false then p
          else if grid.getD ni.toNat none ≠ some lab then p
          else (ni.toNat :: p.1, p.2.set ni.toNat true)) (rest, vis)).2.getD j false = true ↔
        (vis.getD j false = true ∨ j ∈ new)) ∧
      (L.foldl (fun (p : List ℕ × List Bool) ni =>
          if ni < 0 then p
          else if p.2.getD ni.toNat false then p
          else if grid.getD ni.toNat none ≠ some lab then p
          else (ni.toNat :: p.1, p.2.set ni.toNat true)) (rest, vis)).2.count false +
        new.length = vis.count false ∧
      (∀ z ∈ L, ¬ z < 0 → grid.getD z.toNat none = some lab →
        (L.foldl (fun (p : List ℕ × List Bool) ni =>
          if ni < 0 then p
          else if p.2.getD ni.toNat false then p
          else if grid.getD ni.toNat none ≠ some lab then p
          else (ni.toNat :: p.1, p.2.set ni.toNat true)) (rest, vis)).2.getD z.toNat false =
          true) := by
  induction L with
  | nil =>
      intro rest vis _
      exact ⟨[], rfl, List.nodup_nil, by simp, rfl, by simp, by simp, by simp⟩
  | cons z L ih =>
      intro rest vis hlen
      rw [List.foldl_cons]
      by_cases hz : z < 0
      · rw [if_pos hz]
        obtain ⟨new, h1, h2, h3, h4, h5, h6, h7⟩ := ih rest vis hlen
        refine ⟨new, h1, h2, ?_, h4, h5, h6, ?_⟩
        · intro x hx
          obtain ⟨ha, hb, hc⟩ := h3 x hx
          exact ⟨List.mem_cons_of_mem _ ha, hb, hc⟩
        · intro w hw hw0 hwlab
          rcases List.mem_cons.mp hw with hww | hww
          · exact absurd (hww ▸ hz) hw0
          · exact h7 w hww hw0 hwlab
      · rw [if_neg hz]
        by_cases hv : vis.getD z.toNat false
        · rw [if_pos hv]
          obtain ⟨new, h1, h2, h3, h4, h5, h6, h7⟩ := ih rest vis hlen
          refine ⟨new, h1, h2, ?_, h4, h5, h6, ?_⟩
          · intro x hx
            obtain ⟨ha, hb, hc⟩ := h3 x hx
            exact ⟨List.mem_cons_of_mem _ ha, hb, hc⟩
          · intro w hw hw0 hwlab
            rcases List.mem_cons.mp hw with hww | hww
            · rw [hww]
              exact (h5 z.toNat).mpr (Or.inl hv)
            · exact h7 w hww hw0 hwlab
        · rw [if_neg hv]
          by_cases hlab : grid.getD z.toNat none ≠ some lab
          · rw [if_pos hlab]
            obtain ⟨new, h1, h2, h3, h4, h5, h6, h7⟩ := ih rest vis hlen
            refine ⟨new, h1, h2, ?_, h4, h5, h6, ?_⟩
            · intro x hx
              obtain ⟨ha, hb, hc⟩ := h3 x hx
              exact ⟨List.mem_cons_of_mem _ ha, hb, hc⟩
            · intro w hw hw0 hwlab
              rcases List.mem_cons.mp hw with hww | hww
              · exact absurd (hww ▸ hwlab) hlab
              · exact h7 w hww hw0 hwlab
          · rw [if_neg hlab]
            dsimp only
            push_neg at hlab
            have hzlt : z.toNat < vis.length := by
              rw [← hlen]
              exact getD_lt_length_of_ne_default grid z.toNat none (by rw [hlab]; simp)
            have hlen' : grid.length = (vis.set z.toNat true).length := by
              rw [List.length_set]
              exact hlen
            obtain ⟨new, h1, h2, h3, h4, h5, h6, h7⟩ :=
              ih (z.toNat :: rest) (vis.set z.toNat true) hlen'
            have hznotnew : z.toNat ∉ new := by
              intro hmem
              obtain ⟨_, hb, _⟩ := h3 z.toNat hmem
              rw [(getD_set_true_iff vis z.toNat z.toNat hzlt).mpr (Or.inr rfl)] at hb
              exact Bool.true_eq_false.mp hb
            refine ⟨new ++ [z.toNat], ?_, ?_, ?_, ?_, ?_, ?_, ?_⟩
            · rw [h1, List.append_assoc, List.singleton_append]
            · rw [List.nodup_append]
              refine ⟨h2, List.nodup_singleton _, ?_⟩
              intro a ha hb
              rw [List.mem_singleton] at hb
              subst hb
              exact hznotnew ha
            · intro x hx
              rcases List.mem_append.mp hx with hx1 | hx1
              · obtain ⟨ha, hb, hc⟩ := h3 x hx1
                refine ⟨List.mem_cons_of_mem _ ha, ?_, hc⟩
                by_cases hbx : vis.getD x false = true
                · rw [(getD_set_true_iff vis z.toNat x hzlt).mpr (Or.inl hbx)] at hb
                  exact absurd hb (by simp)
                · simpa using hbx
              · rw [List.mem_singleton.mp hx1]
                refine ⟨?_, by simpa using hv, hlab⟩
                rw [Int.toNat_of_nonneg (by omega)]
                exact List.mem_cons_self z L
            · rw [h4, List.length_set]
            · intro j
              rw [h5 j, getD_set_true_iff vis z.toNat j hzlt, List.mem_append,
                List.mem_singleton]
              tauto
            · have hset := count_false_set_true vis z.toNat hzlt (by simpa using hv)
              rw [List.length_append, List.length_singleton]
              omega
            · intro w hw hw0 hwlab
              rcases List.mem_cons.mp hw with hww | hww
              · rw [hww]
                exact (h5 z.toNat).mpr (Or.inl
                  ((getD_set_true_iff vis z.toNat z.toNat hzlt).mpr (Or.inr rfl)))
              · exact h7 w hww hw0 hwlab

lemma flood_cons (grid : List (Option String)) (rows cols : ℕ) (lab : String)
    (fuel ci : ℕ) (rest : List ℕ) (vis : List Bool) (st : List ℕ × List Bool)
    (hst : st = (neighbors4 rows cols ci).foldl (fun (p : List ℕ × List Bool) ni =>
      if ni < 0 then p
      else if p.2.getD ni.toNat false then p
      else if grid.getD ni.toNat none ≠ some lab then p
      else (ni.toNat :: p.1, p.2.set ni.toNat true)) (rest, vis)) :
    flood grid rows cols lab (fuel + 1) (ci :: rest) vis =
      (ci :: (flood grid rows cols lab fuel st.1 st.2).1,
        (flood grid rows cols lab fuel st.1 st.2).2) := by
  subst hst
  rfl

lemma flood_spec (grid : List (Option String)) (rows cols : ℕ) (lab : String) :
    ∀ (fuel : ℕ) (stack : List ℕ) (vis : List Bool),
      grid.length = vis.length →
      stack.Nodup →
      (∀ ci ∈ stack, vis.getD ci false = true) →
      (∀ ci ∈ stack, grid.getD ci none = some lab) →
      vis.count false + stack.length ≤ fuel →
      (flood grid rows cols lab fuel stack vis).2.length = vis.length ∧
      (flood grid rows cols lab fuel stack vis).1.Nodup ∧
      (∀ j ∈ (flood grid rows cols lab fuel stack vis).1,
        grid.getD j none = some lab) ∧
      (∀ s ∈ stack, s ∈ (flood grid rows cols lab fuel stack vis).1) ∧
      (∀ j ∈ (flood grid rows cols lab fuel stack vis).1,
        j ∈ stack ∨ vis.getD j false = false) ∧
      (∀ j, (flood grid rows cols lab fuel stack vis).2.getD j false = true ↔
        (vis.getD j false = true ∨ j ∈ (flood grid rows cols lab fuel stack vis).1)) ∧
      (∀ j ∈ (flood grid rows cols lab fuel stack vis).1,
        ∀ z ∈ neighbors4 rows cols j, ¬ z < 0 →
          grid.getD z.toNat none = some lab →
          (flood grid rows cols lab fuel stack vis).2.getD z.toNat false = true) ∧
      (∀ j ∈ (flood grid rows cols lab fuel stack vis).1,
        ∃ s ∈ stack, Conn grid rows cols s j) := by
  intro fuel
  induction fuel with
  | zero =>
      intro stack vis hlen hnd hmark hlab hfuel
      have hstack : stack = [] := List.length_eq_zero.mp (by omega)
      subst hstack
      exact ⟨rfl, List.nodup_nil, by simp [flood], by simp, by simp [flood],
        by simp [flood], by simp [flood], by simp [flood]⟩
  | succ fuel ih =>
      intro stack vis hlen hnd hmark hlab hfuel
      cases stack with
      | nil =>
          exact ⟨rfl, List.nodup_nil, by simp [flood], by simp, by simp [flood],
            by simp [flood], by simp [flood], by simp [flood]⟩
      | cons ci rest =>
          obtain ⟨new, h1, h2, h3, h4, h5, h6, h7⟩ :=
            flood_fold_spec grid lab (neighbors4 rows cols ci) rest vis hlen
          set st := (neighbors4 rows cols ci).foldl (fun (p : List ℕ × List Bool) ni =>
            if ni < 0 then p
            else if p.2.getD ni.toNat false then p
            else if grid.getD ni.toNat none ≠ some lab then p
            else (ni.toNat :: p.1, p.2.set ni.toNat true)) (rest, vis) with hst
          rw [flood_cons grid rows cols lab fuel ci rest vis st hst]
          have hcimark : vis.getD ci false = true := hmark ci (List.mem_cons_self ci rest)
          have hcilab : grid.getD ci none = some lab := hlab ci (List.mem_cons_self ci rest)
          have hndrest : rest.Nodup := (List.nodup_cons.mp hnd).2
          have hcirest : ci ∉ rest := (List.nodup_cons.mp hnd).1
          have hlen2 : grid.length = st.2.length := hlen.trans h4.symm
          have hnodup2 : st.1.Nodup := by
            rw [h1, List.nodup_append]
            refine ⟨h2, hndrest, ?_⟩
            intro a ha hb
            have hfa := (h3 a ha).2.1
            have hta := hmark a (List.mem_cons_of_mem ci hb)
            rw [hta] at hfa
            exact Bool.true_eq_false.mp hfa
          have hmark2 : ∀ x ∈ st.1, st.2.getD x false = true := by
            intro x hx
            rw [h1] at hx
            rcases List.mem_append.mp hx with hx1 | hx1
            · exact (h5 x).mpr (Or.inr hx1)
            · exact (h5 x).mpr (Or.inl (hmark x (List.mem_cons_of_mem ci hx1)))
          have hlab2 : ∀ x ∈ st.1, grid.getD x none = some lab := by
            intro x hx
            rw [h1] at hx
            rcases List.mem_append.mp hx with hx1 | hx1
            · exact (h3 x hx1).2.2
            · exact hlab x (List.mem_cons_of_mem ci hx1)
          have hfuel2 : st.2.count false + st.1.length ≤ fuel := by
            have hl1 : st.1.length = new.length + rest.length := by
              rw [h1, List.length_append]
            have hsl : (ci :: rest).length = rest.length + 1 := by
              rw [List.length_cons]
            rw [hsl] at hfuel
            omega
          obtain ⟨g1, g2, g3, g4, g5, g6, g7, g8⟩ := ih st.1 st.2 hlen2 hnodup2 hmark2
            hlab2 hfuel2
          have hnewsub : ∀ x ∈ new, x ∈ (flood grid rows cols lab fuel st.1 st.2).1 := by
            intro x hx
            exact g4 x (by rw [h1]; exact List.mem_append_left rest hx)
          have hrestsub : ∀ x ∈ rest, x ∈ (flood grid rows cols lab fuel st.1 st.2).1 := by
            intro x hx
            exact g4 x (by rw [h1]; exact List.mem_append_right new hx)
          refine ⟨?_, ?_, ?_, ?_, ?_, ?_, ?_, ?_⟩
          · rw [g1, h4]
          · refine List.nodup_cons.mpr ⟨?_, g2⟩
            intro hcimem
            rcases g5 ci hcimem with hc1 | hc1
            · rw [h1] at hc1
              rcases List.mem_append.mp hc1 with hc2 | hc2
              · have := (h3 ci hc2).2.1
                rw [hcimark] at this
                exact Bool.true_eq_false.mp this
              · exact hcirest hc2
            · have hci2 : st.2.getD ci false = true := (h5 ci).mpr (Or.inl hcimark)
              rw [hc1] at hci2
              simp at hci2
          · intro j hj
            rcases List.mem_cons.mp hj with hj1 | hj1
            · rw [hj1]
              exact hcilab
            · exact g3 j hj1
          · intro s hs
            rcases List.mem_cons.mp hs with hs1 | hs1
            · rw [hs1]
              exact List.mem_cons_self ci _
            · exact List.mem_cons_of_mem ci (hrestsub s hs1)
          · intro j hj
            rcases List.mem_cons.mp hj with hj1 | hj1
            · exact Or.inl (hj1 ▸ List.mem_cons_self ci rest)
            · rcases g5 j hj1 with hc1 | hc1
              · rw [h1] at hc1
                rcases List.mem_append.mp hc1 with hc2 | hc2
                · exact Or.inr (h3 j hc2).2.1
                · exact Or.inl (List.mem_cons_of_mem ci hc2)
              · right
                by_cases hv : vis.getD j false = true
                · rw [(h5 j).mpr (Or.inl hv)] at hc1
                  simp at hc1
                · simpa using hv
          · intro j
            rw [g6 j, h5 j, List.mem_cons]
            constructor
            · rintro ((hv | hn) | hr)
              · exact Or.inl hv
              · exact Or.inr (Or.inr (hnewsub j hn))
              · exact Or.inr (Or.inr hr)
            · rintro (hv | (hc | hr))
              · exact Or.inl (Or.inl hv)
              · rw [hc]
                exact Or.inl (Or.inl hcimark)
              · exact Or.inr hr
          · intro j hj z hz hz0 hzlab
            rcases List.mem_cons.mp hj with hj1 | hj1
            · refine (g6 z.toNat).mpr (Or.inl ?_)
              exact h7 z (hj1 ▸ hz) hz0 hzlab
            · exact g7 j hj1 z hz hz0 hzlab
          · intro j hj
            rcases List.mem_cons.mp hj with hj1 | hj1
            · exact ⟨ci, List.mem_cons_self ci rest, hj1 ▸ Relation.ReflTransGen.refl⟩
            · obtain ⟨s, hs, hc⟩ := g8 j hj1
              rw [h1] at hs
              rcases List.mem_append.mp hs with hs1 | hs1
              · refine ⟨ci, List.mem_cons_self ci rest, ?_⟩
                refine Relation.ReflTransGen.head ?_ hc
                refine ⟨(h3 s hs1).1, ?_, ?_⟩
                · rw [hcilab]
                  simp
                · rw [(h3 s hs1).2.2, hcilab]
              · exact ⟨s, List.mem_cons_of_mem ci hs1, hc⟩

lemma extractScanStep_eq_visited (data : DominanceResult) (grid : List (Option String))
    (rowsN colsN : ℕ) (st : List Bool × List Region) (idx : ℕ)
    (hv : st.1.getD idx false = true) :
    extractScanStep data grid rowsN colsN st idx = st := by
  unfold extractScanStep
  rw [if_pos hv]

lemma extractScanStep_eq_null (data : DominanceResult) (grid : List (Option String))
    (rowsN colsN : ℕ) (st : List Bool × List Region) (idx : ℕ)
    (hv : st.1.getD idx false = false) (hnull : grid.getD idx none = none) :
    extractScanStep data grid rowsN colsN st idx = (st.1.set idx true, st.2) := by
  unfold extractScanStep
  rw [if_neg (by rw [hv]; simp), hnull]

lemma extractScanStep_eq_flood (data : DominanceResult) (grid : List (Option String))
    (rowsN colsN : ℕ) (st : List Bool × List Region) (idx : ℕ) (lab : String)
    (hv : st.1.getD idx false = false) (hlab : grid.getD idx none = some lab) :
    extractScanStep data grid rowsN colsN st idx =
      ((flood grid rowsN colsN lab (rowsN * colsN + 1) [idx] (st.1.set idx true)).2,
        st.2 ++ [buildRegion data colsN lab (idx / colsN) (idx % colsN)
          (flood grid rowsN colsN lab (rowsN * colsN + 1) [idx] (st.1.set idx true)).1]) := by
  unfold extractScanStep
  rw [if_neg (by rw [hv]; simp), hlab]

lemma length_eq_of_nodup_of_mem_iff (l1 l2 : List ℕ) (h1 : l1.Nodup) (h2 : l2.Nodup)
    (h : ∀ x, x ∈ l1 ↔ x ∈ l2) : l1.length = l2.length := by
  rw [← List.toFinset_card_of_nodup h1, ← List.toFinset_card_of_nodup h2]
  congr 1
  ext x
  rw [List.mem_toFinset, List.mem_toFinset]
  exact h x

lemma buildRegion_beerId (data : DominanceResult) (colsN : ℕ) (b : String)
    (r c : ℕ) (L : List ℕ) : (buildRegion data colsN b r c L).beerId = b := rfl

lemma buildRegion_cellCount (data : DominanceResult) (colsN : ℕ) (b : String)
    (r c : ℕ) (L : List ℕ) : (buildRegion data colsN b r c L).cellCount = L.length := rfl

open Classical in
lemma extract_scan_inv (data : DominanceResult) (R C : ℕ) (G : List (Option String))
    (hG : G = cellGrid data) (hR : R = data.rows.toNat) (hC : C = data.cols.toNat) :
    ∀ k : ℕ, k ≤ R * C →
      (((List.range k).foldl (extractScanStep data G R C)
          (List.replicate (R * C) false, [])).1.length = R * C) ∧
      (∀ j, ((List.range k).foldl (extractScanStep data G R C)
          (List.replicate (R * C) false, [])).1.getD j false = true ↔
        (∃ i, i < k ∧ ((G.getD i none = none ∧ j = i) ∨
          (G.getD i none ≠ none ∧ Conn G R C i j)))) ∧
      (((List.range k).foldl (extractScanStep data G R C)
          (List.replicate (R * C) false, [])).2.map
            (fun rg => (some rg.beerId, rg.cellCount)) =
        ((List.range k).filter fun i =>
          decide (G.getD i none ≠ none ∧ ∀ j, Conn G R C i j → i ≤ j)).map
          (fun i => (G.getD i none, (compListOf data i).length))) := by
  have hGlen : G.length = R * C := by
    rw [hG, hR, hC]
    exact gridOf_length _ _ _
  intro k
  induction k with
  | zero =>
      intro _
      refine ⟨by simp, ?_, by simp⟩
      intro j
      have hrep : (List.replicate (R * C) false).getD j false = false := by
        rw [List.getD_eq_getElem?_getD, List.getElem?_replicate]
        split <;> rfl
      simp only [List.range_zero, List.foldl_nil]
      rw [hrep]
      simp
  | succ k ihk =>
      intro hk1
      obtain ⟨ih1, ih2, ih3⟩ := ihk (by omega)
      have hkn : k < R * C := by omega
      rw [List.range_succ, List.foldl_append, List.foldl_cons, List.foldl_nil]
      set st := (List.range k).foldl (extractScanStep data G R C)
        (List.replicate (R * C) false, []) with hstdef
      by_cases hv : st.1.getD k false = true
      · rw [extractScanStep_eq_visited data G R C st k hv]
        obtain ⟨i0, hi0k, hcase0⟩ := (ih2 k).mp hv
        have hknn : G.getD k none ≠ none ∧ G.getD i0 none ≠ none ∧ Conn G R C i0 k := by
          rcases hcase0 with ⟨hnull, hji⟩ | ⟨hnn, hconn⟩
          · exact absurd hji (by omega)
          · refine ⟨?_, hnn, hconn⟩
            rw [conn_label G R C hconn]
            exact hnn
        obtain ⟨hknn1, hi0nn, hi0conn⟩ := hknn
        have hnotlead : ¬(G.getD k none ≠ none ∧ ∀ j, Conn G R C k j → k ≤ j) := by
          rintro ⟨-, hmin⟩
          have := hmin i0 (conn_symm G R C hGlen hi0conn)
          omega
        refine ⟨ih1, ?_, ?_⟩
        · intro j
          rw [ih2 j]
          constructor
          · rintro ⟨i1, hi1, hc⟩
            exact ⟨i1, by omega, hc⟩
          · rintro ⟨i1, hi1, hc⟩
            by_cases hik : i1 = k
            · subst hik
              rcases hc with ⟨hnull, _⟩ | ⟨hnn, hconn⟩
              · exact absurd hnull hknn1
              · exact ⟨i0, hi0k, Or.inr ⟨hi0nn, hi0conn.trans hconn⟩⟩
            · exact ⟨i1, by omega, hc⟩
        · have hfk : List.filter (fun i => decide (G.getD i none ≠ none ∧
              ∀ j, Conn G R C i j → i ≤ j)) [k] = [] := by
            simp only [List.filter_cons, List.filter_nil]
            rw [decide_eq_false hnotlead]
            simp
          rw [List.filter_append, hfk, List.append_nil]
          exact ih3
      · have hvf : st.1.getD k false = false := by
          cases hb : st.1.getD k false
          · rfl
          · exact absurd hb hv
        have hklen : k < st.1.length := by
          rw [ih1]
          exact hkn
        rcases hGk : G.getD k none with _ | lab
        · rw [extractScanStep_eq_null data G R C st k hvf hGk]
          refine ⟨?_, ?_, ?_⟩
          · rw [List.length_set]
            exact ih1
          · intro j
            rw [getD_set_true_iff st.1 k j hklen, ih2 j]
            constructor
            · rintro (⟨i1, hi1, hc⟩ | hjk)
              · exact ⟨i1, by omega, hc⟩
              · exact ⟨k, by omega, Or.inl ⟨hGk, hjk⟩⟩
            · rintro ⟨i1, hi1, hc⟩
              by_cases hik : i1 = k
              · subst hik
                rcases hc with ⟨_, hji⟩ | ⟨hnn, _⟩
                · exact Or.inr hji
                · exact absurd hGk hnn
              · exact Or.inl ⟨i1, by omega, hc⟩
          · have hnotlead : ¬(G.getD k none ≠ none ∧ ∀ j, Conn G R C k j → k ≤ j) := by
              rintro ⟨hne, -⟩
              exact hne hGk
            have hfk : List.filter (fun i => decide (G.getD i none ≠ none ∧
                ∀ j, Conn G R C i j → i ≤ j)) [k] = [] := by
              simp only [List.filter_cons, List.filter_nil]
              rw [decide_eq_false hnotlead]
              simp
            rw [List.filter_append, hfk, List.append_nil]
            exact ih3
        · rw [extractScanStep_eq_flood data G R C st k lab hvf hGk]
          have hdisj : ∀ j, Conn G R C k j → st.1.getD j false = false := by
            intro j hconn
            cases hjv : st.1.getD j false
            · rfl
            · exfalso
              obtain ⟨i1, hi1, hc⟩ := (ih2 j).mp hjv
              rcases hc with ⟨hnull, hji⟩ | ⟨hnn, hc2⟩
              · have hlabj := conn_label G R C hconn
                rw [hGk, hji, hnull] at hlabj
                exact Option.noConfusion hlabj
              · have hik : Conn G R C i1 k := hc2.trans (conn_symm G R C hGlen hconn)
                have hkv : st.1.getD k false = true :=
                  (ih2 k).mpr ⟨i1, hi1, Or.inr ⟨hnn, hik⟩⟩
                rw [hvf] at hkv
                exact Bool.noConfusion hkv
          have hmark1 : ∀ ci ∈ [k], (st.1.set k true).getD ci false = true := by
            intro ci hci
            rw [List.mem_singleton] at hci
            subst hci
            exact (getD_set_true_iff st.1 ci ci hklen).mpr (Or.inr rfl)
          have hlab1 : ∀ ci ∈ [k], G.getD ci none = some lab := by
            intro ci hci
            rw [List.mem_singleton] at hci
            subst hci
            exact hGk
          have hlen1 : G.length = (st.1.set k true).length := by
            rw [List.length_set, ih1]
            exact hGlen
          have hfuel1 : (st.1.set k true).count false + [k].length ≤ R * C + 1 := by
            have hcle := List.count_le_length false (st.1.set k true)
            rw [List.length_set, ih1] at hcle
            simp only [List.length_singleton]
            omega
          obtain ⟨f1, f2, f3, f4, f5, f6, f7, f8⟩ := flood_spec G R C lab (R * C + 1) [k]
            (st.1.set k true) hlen1 (List.nodup_singleton k) hmark1 hlab1 hfuel1
          have hpop : ∀ j, j ∈ (flood G R C lab (R * C + 1) [k] (st.1.set k true)).1 ↔
              Conn G R C k j := by
            intro j
            constructor
            · intro hj
              obtain ⟨s, hs, hc⟩ := f8 j hj
              rw [List.mem_singleton] at hs
              exact hs ▸ hc
            · intro hconn
              induction hconn with
              | refl => exact f4 k (List.mem_singleton_self k)
              | @tail b c hkm hstep ihm =>
                  have hlabc : G.getD c none = some lab := by
                    rw [hstep.2.2, conn_label G R C hkm, hGk]
                  have hnn0 : ¬((c : ℤ) < 0) := by omega
                  have hvisc := f7 b ihm (c : ℤ) hstep.1 hnn0
                    (by rw [Int.toNat_natCast]; exact hlabc)
                  rw [Int.toNat_natCast] at hvisc
                  rcases (f6 c).mp hvisc with hvs | hpop2
                  · rw [getD_set_true_iff st.1 k c hklen] at hvs
                    rcases hvs with hst1 | hck
                    · rw [hdisj c (hkm.tail hstep)] at hst1
                      exact Bool.noConfusion hst1
                    · rw [hck]
                      exact f4 k (List.mem_singleton_self k)
                  · exact hpop2
          refine ⟨?_, ?_, ?_⟩
          · rw [f1, List.length_set]
            exact ih1
          · intro j
            rw [f6 j, getD_set_true_iff st.1 k j hklen, ih2 j]
            constructor
            · rintro ((⟨i1, hi1, hc⟩ | hjk) | hjp)
              · exact ⟨i1, by omega, hc⟩
              · refine ⟨k, by omega, Or.inr ⟨by rw [hGk]; simp, ?_⟩⟩
                rw [hjk]
                exact Relation.ReflTransGen.refl
              · exact ⟨k, by omega, Or.inr ⟨by rw [hGk]; simp, (hpop j).mp hjp⟩⟩
            · rintro ⟨i1, hi1, hc⟩
              by_cases hik : i1 = k
              · subst hik
                rcases hc with ⟨hnull, _⟩ | ⟨_, hconn⟩
                · exfalso
                  rw [hGk] at hnull
                  exact Option.noConfusion hnull
                · exact Or.inr ((hpop j).mpr hconn)
              · exact Or.inl (Or.inl ⟨i1, by omega, hc⟩)
          · have hlead : G.getD k none ≠ none ∧ ∀ j, Conn G R C k j → k ≤ j := by
              refine ⟨by rw [hGk]; simp, ?_⟩
              intro j hconn
              by_contra hlt
              push_neg at hlt
              have hjv : st.1.getD j false = true := (ih2 j).mpr
                ⟨j, hlt, Or.inr ⟨by rw [conn_label G R C hconn, hGk]; simp,
                  Relation.ReflTransGen.refl⟩⟩
              rw [hdisj j hconn] at hjv
              exact Bool.noConfusion hjv
            have hfk : List.filter (fun i => decide (G.getD i none ≠ none ∧
                ∀ j, Conn G R C i j → i ≤ j)) [k] = [k] := by
              simp only [List.filter_cons, List.filter_nil]
              rw [decide_eq_true hlead]
              simp
            have hcomplen : (compListOf data k).length =
                (flood G R C lab (R * C + 1) [k] (st.1.set k true)).1.length := by
              apply length_eq_of_nodup_of_mem_iff
              · exact (List.nodup_range _).filter _
              · exact f2
              · intro x
                constructor
                · intro hx
                  unfold compListOf at hx
                  rw [List.mem_filter, decide_eq_true_eq] at hx
                  refine (hpop x).mpr ?_
                  rw [hG, hR, hC]
                  exact hx.2
                · intro hx
                  have hconn := (hpop x).mp hx
                  have hxlab := f3 x hx
                  have hxlt : x < R * C :=
                    hGlen ▸ getD_lt_length_of_ne_default G x none (by rw [hxlab]; simp)
                  unfold compListOf
                  rw [List.mem_filter, decide_eq_true_eq]
                  refine ⟨List.mem_range.mpr ?_, ?_⟩
                  · rw [← hR, ← hC]
                    exact hxlt
                  · rw [← hG, ← hR, ← hC]
                    exact hconn
            rw [List.filter_append, hfk, List.map_append, List.map_append, ih3]
            simp only [List.map_cons, List.map_nil, buildRegion_beerId,
              buildRegion_cellCount, hGk, hcomplen]

/-- C8: for every dominance result, `extractRegions` is sorted by
`cellCount` descending, and its regions are — up to the sort's permutation —
in one-to-one correspondence with the maximal 4-connected same-label
components of the non-null winner cells (one region per component,
enumerated by the component's least flat index, with `beerId` the
component's label and `cellCount` the component's size); in particular on a
3 x 3 grid entirely labeled A it returns exactly one region with
`cellCount` 9 and a bounding box covering the full grid. -/
theorem claim_C8_regions_are_sorted_components :
    (∀ data : DominanceResult,
        List.Sorted (fun a b : Region => b.cellCount ≤ a.cellCount) (extractRegions data) ∧
        ((extractRegions data).map fun rg => (some rg.beerId, rg.cellCount)).Perm
          ((leadersOf data).map fun i =>
            ((cellGrid data).getD i none, (compListOf data i).length))) ∧
    (extractRegions data9).map (fun rg => (rg.beerId, rg.cellCount,
        rg.boundingBox.minRow, rg.boundingBox.maxRow,
        rg.boundingBox.minCol, rg.boundingBox.maxCol)) = [("A", 9, 0, 2, 0, 2)] := by
  constructor
  · intro data
    haveI hTot : IsTotal Region (fun a b => b.cellCount ≤ a.cellCount) :=
      ⟨fun a b => le_total b.cellCount a.cellCount⟩
    haveI hTrans : IsTrans Region (fun a b => b.cellCount ≤ a.cellCount) :=
      ⟨fun _ _ _ hab hbc => le_trans hbc hab⟩
    constructor
    · simp only [extractRegions]
      exact List.sorted_insertionSort _ _
    · have hperm1 : (extractRegions data).Perm
          (((List.range (data.rows.toNat * data.cols.toNat)).foldl
            (extractScanStep data
              (gridOf data.cells data.cols.toNat (data.rows.toNat * data.cols.toNat))
              data.rows.toNat data.cols.toNat)
            (List.replicate (data.rows.toNat * data.cols.toNat) false, [])).2) := by
        simp only [extractRegions]
        exact List.perm_insertionSort _ _
      refine (hperm1.map _).trans ?_
      have hscan := (extract_scan_inv data data.rows.toNat data.cols.toNat
        (gridOf data.cells data.cols.toNat (data.rows.toNat * data.cols.toNat))
        rfl rfl rfl (data.rows.toNat * data.cols.toNat) le_rfl).2.2
      rw [hscan]
      exact List.Perm.refl _
  · decide

end BrewCountry
